import Mathlib

/-!
Verification of the ironic-inspector node cache, processing pipeline and
rules engine, shallowly embedded from the Python sources
(`ironic_inspector/node_cache.py`, `ironic_inspector/process.py`,
`ironic_inspector/plugins/rules.py`, `ironic_inspector/db.py`).

Timestamps (Python `time.time()` floats) are modelled as `Int`.  Database
tables (`nodes`, `attributes`, `options` from `db.py`) are lists of rows.
The process-wide keyed semaphore (`lockutils.Semaphores`) is modelled as the
list of node uuids whose lock is currently held.
-/

namespace Inspector

instance {ε α : Type} [DecidableEq ε] [DecidableEq α] :
    DecidableEq (Except ε α) := fun x y =>
  match x, y with
  | .ok a, .ok b =>
      if h : a = b then isTrue (by rw [h]) else isFalse (by simp [h])
  | .error a, .error b =>
      if h : a = b then isTrue (by rw [h]) else isFalse (by simp [h])
  | .ok _, .error _ => isFalse (by simp)
  | .error _, .ok _ => isFalse (by simp)

/-- Row of the `nodes` table (`db.py`, class `Node`): `uuid` primary key,
`started_at`, `finished_at` nullable timestamps, `error` nullable text. -/
structure NodeRow where
  uuid : String
  started_at : Int
  finished_at : Option Int
  error : Option String
  deriving Repr, DecidableEq

/-- Row of the `attributes` table (`db.py`, class `Attribute`):
`(name, value)` is the primary key, `uuid` a foreign key into `nodes`. -/
structure AttrRow where
  name : String
  value : String
  uuid : String
  deriving Repr, DecidableEq

/-- Row of the `options` table (`db.py`, class `Option`):
`(uuid, name)` primary key, `value` a JSON-encoded text. -/
structure OptRow where
  uuid : String
  name : String
  value : String
  deriving Repr, DecidableEq

/-- The relational store: the three tables of `db.py`. -/
structure DB where
  nodes : List NodeRow
  attrs : List AttrRow
  opts : List OptRow
  deriving Repr, DecidableEq

namespace DB

/-- `db.model_query(db.Node).filter_by(uuid=u).first()`. -/
def getNode (db : DB) (u : String) : Option NodeRow :=
  db.nodes.find? (fun n => n.uuid == u)

/-- `db.model_query(db.Node).filter_by(uuid=u).update({'finished_at': t, 'error': e})`. -/
def updateNodeFinished (db : DB) (u : String) (t : Int) (e : Option String) : DB :=
  { db with nodes := db.nodes.map (fun n =>
      if n.uuid == u then { n with finished_at := some t, error := e } else n) }

/-- `db.model_query(db.Attribute).filter_by(uuid=u).delete()`. -/
def deleteAttrsOf (db : DB) (u : String) : DB :=
  { db with attrs := db.attrs.filter (fun a => a.uuid != u) }

/-- `db.model_query(db.Option).filter_by(uuid=u).delete()`. -/
def deleteOptsOf (db : DB) (u : String) : DB :=
  { db with opts := db.opts.filter (fun o => o.uuid != u) }

/-- `db.model_query(db.Node).filter_by(uuid=u).delete()`. -/
def deleteNodeRow (db : DB) (u : String) : DB :=
  { db with nodes := db.nodes.filter (fun n => n.uuid != u) }

/-- `_delete_node(uuid)` in `node_cache.py`: delete the attribute, option and
node rows of `uuid` in one transaction. -/
def deleteNode (db : DB) (u : String) : DB :=
  ((db.deleteAttrsOf u).deleteOptsOf u).deleteNodeRow u

end DB

/-- Error outcomes raised by the cache and the pipeline (`utils.Error` and
`utils.NotFoundInCacheError`).  HTTP-style codes carried by each error are
attached by `Err.code` below. -/
inductive Err
  | notFound (uuid : String)
  | notFoundInCache
  | ambiguousLookup (uuids : List String)
  | alreadyFinished (finish : Int)
  | duplicateAttribute (name : String)
  | sqlError
  | lockedErr (uuid : String)
  | processAlreadyFinished (error : Option String)
  | processPreFailures (failures : List String)
  deriving Repr, DecidableEq

/-- Modelled from the spec: the module `utils.py` (defining `utils.Error` and
`utils.NotFoundInCacheError`) is not part of the sources at hand; per the
spec's error-handling design, identity-resolution failures (not-found,
ambiguous lookups) are 404-class, already-finished submissions are 400-class,
and lock-acquisition failures are 409.  Codes passed explicitly in the
sources (`code=404` for ambiguous lookups, `code=400` for already-finished
`process`, `code=409` for `reapply`) agree with these. -/
def Err.code : Err → Nat
  | .notFound _ => 404
  | .notFoundInCache => 404
  | .ambiguousLookup _ => 404
  | .alreadyFinished _ => 400
  | .duplicateAttribute _ => 400
  | .sqlError => 500
  | .lockedErr _ => 409
  | .processAlreadyFinished _ => 400
  | .processPreFailures _ => 404

/-- In-memory handle over a node record (`node_cache.py`, class `NodeInfo`).
`locked` is the `_locked` flag: whether the per-uuid lock was acquired
through this handle. -/
structure NodeInfo where
  uuid : String
  started_at : Option Int
  finished_at : Option Int
  error : Option String
  locked : Bool
  deriving Repr, DecidableEq

/-- The process-wide keyed semaphore (`_SEMAPHORES` in `node_cache.py`):
the set of node uuids whose lock is currently held, as a list. -/
abbrev Locks := List String

namespace NodeInfo

/-- `NodeInfo.acquire_lock(blocking)`.  Returns `none` when a blocking
acquisition would wait on a lock held by another handle (the calling thread
blocks); otherwise returns the success flag together with the updated handle
and lock registry. -/
def acquireLock (ni : NodeInfo) (blocking : Bool) (locks : Locks) :
    Option (Bool × NodeInfo × Locks) :=
  if ni.locked then
    some (true, ni, locks)
  else if locks.contains ni.uuid then
    if blocking then none else some (false, ni, locks)
  else
    some (true, { ni with locked := true }, ni.uuid :: locks)

/-- `NodeInfo.release_lock()`: releases the underlying lock only when it was
acquired through this handle, and always clears the `_locked` flag. -/
def releaseLock (ni : NodeInfo) (locks : Locks) : NodeInfo × Locks :=
  if ni.locked then ({ ni with locked := false }, locks.erase ni.uuid)
  else (ni, locks)

end NodeInfo

/-- Primitive events performed by `NodeInfo.finished`, in order of the
source lines: the lock release and the three durable writes of its
transaction. -/
inductive Ev
  | releaseLock
  | dbUpdateNode
  | dbDeleteAttrs
  | dbDeleteOpts
  deriving Repr, DecidableEq

/-- Which events mutate durable state. -/
def Ev.isMutation : Ev → Bool
  | .releaseLock => false
  | .dbUpdateNode => true
  | .dbDeleteAttrs => true
  | .dbDeleteOpts => true

/-- `NodeInfo.finished(error)` (`node_cache.py` lines 155-174), instrumented
with its event trace.  Each event is paired with whether the handle holds
the per-uuid lock at the moment the event is performed.  The source order
is: `release_lock()`, then set `finished_at`/`error` in memory, then one
transaction updating the node row and deleting the attribute and option
rows. -/
def finishedTr (ni : NodeInfo) (err : Option String) (now : Int)
    (db : DB) (locks : Locks) :
    NodeInfo × DB × Locks × List (Ev × Bool) :=
  let e1 := (Ev.releaseLock, ni.locked)
  let (ni, locks) := ni.releaseLock locks
  let ni := { ni with finished_at := some now, error := err }
  let e2 := (Ev.dbUpdateNode, ni.locked)
  let db := db.updateNodeFinished ni.uuid now err
  let e3 := (Ev.dbDeleteAttrs, ni.locked)
  let db := db.deleteAttrsOf ni.uuid
  let e4 := (Ev.dbDeleteOpts, ni.locked)
  let db := db.deleteOptsOf ni.uuid
  (ni, db, locks, [e1, e2, e3, e4])

/-- `NodeInfo.finished(error)` without the instrumentation. -/
def finished (ni : NodeInfo) (err : Option String) (now : Int)
    (db : DB) (locks : Locks) : NodeInfo × DB × Locks :=
  let (ni, db, locks, _) := finishedTr ni err now db locks
  (ni, db, locks)

/-- `NodeInfo.set_option(name, value)` (`node_cache.py` lines 145-153):
delete any option row `(uuid, name)` and insert the new row, in one
transaction.  `value` stands for the JSON-encoded text. -/
def setOption (ni : NodeInfo) (name value : String) (db : DB) : DB :=
  let db := { db with
    opts := db.opts.filter (fun o => !(o.uuid == ni.uuid && o.name == name)) }
  { db with opts := db.opts ++ [⟨ni.uuid, name, value⟩] }

/-- A value passed for a lookup attribute: mirrors the Python call sites,
where an attribute value is `None`, a scalar, or a list of scalars.
`add_node`/`find_node` skip falsy values (`None`, `''`, `[]`). -/
inductive AttrVal
  | noneV
  | scalar (s : String)
  | listV (vs : List String)
  deriving Repr, DecidableEq

/-- Python truthiness of an attribute value: `None`, `''` and `[]` are
falsy. -/
def AttrVal.falsy : AttrVal → Bool
  | .noneV => true
  | .scalar s => s == ""
  | .listV vs => vs.isEmpty

/-- `if not isinstance(value, list): value = [value]`. -/
def AttrVal.toList : AttrVal → List String
  | .noneV => []
  | .scalar s => [s]
  | .listV vs => vs

/-- `NodeInfo.add_attribute(name, value)` (`node_cache.py` lines 176-201):
save one `Attribute` row per value; a `(name, value)` primary-key collision
raises the duplicate error (the enclosing transaction rolls back). -/
def addAttribute (u : String) (name : String) (values : List String)
    (db : DB) : Except Err DB :=
  values.foldlM (fun db v =>
    if db.attrs.any (fun a => a.name == name && a.value == v) then
      .error (Err.duplicateAttribute name)
    else
      .ok { db with attrs := db.attrs ++ [⟨name, v, u⟩] }) db

/-- `add_node(uuid, **attributes)` (`node_cache.py` lines 361-384): in one
transaction, drop all existing information about the uuid, insert a fresh
node row with `started_at = now`, and add each non-falsy attribute.  On a
duplicate-attribute error the transaction rolls back, leaving the store
unchanged. -/
def add_node (u : String) (attributes : List (String × AttrVal)) (now : Int)
    (db : DB) : Except Err (NodeInfo × DB) := do
  let db0 := db.deleteNode u
  let db0 := { db0 with nodes := db0.nodes ++ [⟨u, now, none, none⟩] }
  let db1 ← attributes.foldlM (fun db nv =>
    if nv.2.falsy then pure db
    else addAttribute u nv.1 nv.2.toList db) db0
  pure (⟨u, some now, none, none, false⟩, db1)

/-- `get_node(uuid, locked)` (`node_cache.py` lines 427-450).  With
`locked = true` the per-uuid lock is taken before the read; `none` models
the caller blocking on a lock held elsewhere.  On an error after
acquisition the lock is released before propagating, so the registry is
left as it was. -/
def get_node (u : String) (lockedFlag : Bool) (db : DB) (locks : Locks) :
    Option (Except Err (NodeInfo × Locks)) :=
  if lockedFlag then
    if locks.contains u then none
    else
      match db.getNode u with
      | Option.none => some (.error (Err.notFound u))
      | some row =>
          some (.ok (⟨row.uuid, some row.started_at, row.finished_at,
                      row.error, true⟩, u :: locks))
  else
    match db.getNode u with
    | Option.none => some (.error (Err.notFound u))
    | some row =>
        some (.ok (⟨row.uuid, some row.started_at, row.finished_at,
                    row.error, false⟩, locks))

/-- Configuration options used by `clean_up`. -/
structure Config where
  timeout : Int
  node_status_keep_time : Int
  deriving Repr, DecidableEq

/-- The per-uuid loop of `clean_up` (`node_cache.py` lines 548-562).  For
each selected uuid: fetch the node with its lock held (`none` when the
caller would block), re-check `finished_at`/`started_at` under the lock,
and either skip or mark the node timed out (update the node row, delete its
attribute and option rows), releasing the lock either way.  `env i`
describes what other lock holders did to the store while this sweep waited
for the `i`-th lock; the sequential run uses `fun _ db => db`. -/
def cleanUpLoop (threshold now : Int) (env : Nat → DB → DB) :
    List String → Nat → DB → Locks → Option (Except Err (DB × Locks))
  | [], _, db, locks => some (.ok (db, locks))
  | u :: rest, i, db, locks =>
    let db := env i db
    if locks.contains u then none
    else
      match db.getNode u with
      | Option.none => some (.error (Err.notFound u))
      | some row =>
        if row.finished_at.isSome || decide (row.started_at > threshold) then
          cleanUpLoop threshold now env rest (i + 1) db locks
        else
          let db := ((db.updateNodeFinished u now
              (some "Introspection timeout")).deleteAttrsOf u).deleteOptsOf u
          cleanUpLoop threshold now env rest (i + 1) db locks

/-- `clean_up()` (`node_cache.py` lines 520-564):
1. delete node rows whose `finished_at` is set and older than
   `now − node_status_keep_time`;
2. if `timeout ≤ 0`, return the empty list;
3. select the uuids with `started_at < now − timeout` and null
   `finished_at`;
4. run the per-uuid loop over that selection;
5. return the *selected* list of uuids.
The few `time.time()` calls of this function happen within the same sweep
and are modelled by the single instant `now`. -/
def clean_up (cfg : Config) (now : Int) (env : Nat → DB → DB)
    (db : DB) (locks : Locks) :
    Option (Except Err (DB × Locks × List String)) :=
  let keepThreshold := now - cfg.node_status_keep_time
  let db := { db with nodes := db.nodes.filter (fun n =>
      match n.finished_at with
      | some t => !decide (t < keepThreshold)
      | Option.none => true) }
  if cfg.timeout ≤ 0 then some (.ok (db, locks, []))
  else
    let threshold := now - cfg.timeout
    let uuids := (db.nodes.filter (fun n =>
        decide (n.started_at < threshold) && n.finished_at.isNone)).map
        (fun n => n.uuid)
    if uuids.isEmpty then some (.ok (db, locks, []))
    else
      (cleanUpLoop threshold now env uuids 0 db locks).map
        (fun r => r.map (fun p => (p.1, p.2, uuids)))

/-- `clean_up` with no concurrent activity. -/
def clean_up_seq (cfg : Config) (now : Int) (db : DB) (locks : Locks) :
    Option (Except Err (DB × Locks × List String)) :=
  clean_up cfg now (fun _ db => db) db locks

/-!
`find_node` (`node_cache.py` lines 453-517) builds its lookup statements by
string concatenation:
`'select distinct uuid from attributes where ' + ' OR '.join(value_list)`
with each clause `'name="%s" AND value="%s"' % (name, v)`.  To be faithful
to that (including the behaviour on values that contain SQL metacharacters)
we model the fragment of SQL these statements can produce: double-quoted
strings, bare identifiers, `=` comparisons, and a flat `AND`/`OR` boolean
structure.  Per SQLite's rules a double-quoted token that names a column of
the queried table denotes that column, otherwise it is a string literal. -/

/-- Tokens of the generated SQL statements. -/
inductive SqlTok
  | ident (s : String)
  | strLit (s : String)
  | eqTok
  deriving Repr, DecidableEq

/-- Characters allowed in a bare SQL identifier/keyword. -/
def sqlIdentChar (c : Char) : Bool :=
  c.isAlphanum || c == '_'

/-- Tokenizer state: at top level, inside a double-quoted string, or inside
a bare identifier. -/
inductive TokMode
  | top
  | inStr (acc : List Char)
  | inIdent (acc : List Char)
  deriving Repr, DecidableEq

/-- One step of the SQL tokenizer. -/
def tokStep (st : Option (List SqlTok × TokMode)) (c : Char) :
    Option (List SqlTok × TokMode) :=
  match st with
  | Option.none => Option.none
  | some (toks, .inStr acc) =>
    if c == '"' then some (toks ++ [.strLit ⟨acc⟩], .top)
    else some (toks, .inStr (acc ++ [c]))
  | some (toks, .inIdent acc) =>
    if sqlIdentChar c then some (toks, .inIdent (acc ++ [c]))
    else if c == '"' then some (toks ++ [.ident ⟨acc⟩], .inStr [])
    else if c == '=' then some (toks ++ [.ident ⟨acc⟩, .eqTok], .top)
    else if c == ' ' then some (toks ++ [.ident ⟨acc⟩], .top)
    else Option.none
  | some (toks, .top) =>
    if c == ' ' then some (toks, .top)
    else if c == '"' then some (toks, .inStr [])
    else if c == '=' then some (toks ++ [.eqTok], .top)
    else if sqlIdentChar c then some (toks, .inIdent [c])
    else Option.none

/-- Tokenize a SQL statement; `none` on a character outside the modelled
fragment or an unterminated string. -/
def tokenize (s : String) : Option (List SqlTok) :=
  match s.data.foldl tokStep (some ([], .top)) with
  | some (toks, .top) => some toks
  | some (toks, .inIdent acc) => some (toks ++ [.ident ⟨acc⟩])
  | _ => Option.none

/-- A comparison operand: a column of the `attributes` table or a string
literal.  A double-quoted token resolves to a column when it spells a
column name (SQLite's fallback rule), else to a literal. -/
inductive Operand
  | col (c : String)
  | lit (s : String)
  deriving Repr, DecidableEq

/-- Columns of the `attributes` table. -/
def attrColumns : List String := ["name", "value", "uuid"]

/-- Resolve one token as a comparison operand. -/
def operandOf : SqlTok → Option Operand
  | .ident s => if attrColumns.contains s then some (.col s) else Option.none
  | .strLit s => if attrColumns.contains s then some (.col s) else some (.lit s)
  | .eqTok => Option.none

/-- Split a token list on a separator token (flat, no parentheses in the
modelled fragment). -/
def splitOnTok (sep : SqlTok) : List SqlTok → List (List SqlTok)
  | [] => [[]]
  | t :: ts =>
    let r := splitOnTok sep ts
    if t == sep then [] :: r
    else
      match r with
      | [] => [[t]]
      | g :: gs => (t :: g) :: gs

/-- Parse one comparison `operand = operand`. -/
def parseFactor (ts : List SqlTok) : Option (Operand × Operand) :=
  match ts with
  | [a, .eqTok, b] => do
      let x ← operandOf a
      let y ← operandOf b
      pure (x, y)
  | _ => Option.none

/-- Parse every factor of a conjunction. -/
def parseFactors : List (List SqlTok) → Option (List (Operand × Operand))
  | [] => some []
  | f :: fs => do
      let x ← parseFactor f
      let rest ← parseFactors fs
      pure (x :: rest)

/-- Parse every conjunct of a disjunction. -/
def parseConjs :
    List (List SqlTok) → Option (List (List (Operand × Operand)))
  | [] => some []
  | c :: cs => do
      let x ← parseFactors (splitOnTok (.ident "AND") c)
      let rest ← parseConjs cs
      pure (x :: rest)

/-- Parse a where-clause as a disjunction of conjunctions of comparisons
(`AND` binds tighter than `OR`). -/
def parseWhere (ts : List SqlTok) :
    Option (List (List (Operand × Operand))) :=
  parseConjs (splitOnTok (.ident "OR") ts)

/-- Value of an operand at an `attributes` row. -/
def evalOperand (o : Operand) (a : AttrRow) : String :=
  match o with
  | .col c => if c == "name" then a.name else if c == "value" then a.value else a.uuid
  | .lit s => s

/-- Truth of a parsed where-clause at an `attributes` row. -/
def evalWhere (w : List (List (Operand × Operand))) (a : AttrRow) : Bool :=
  w.any (fun conj => conj.all (fun f => evalOperand f.1 a == evalOperand f.2 a))

/-- First-occurrence deduplication (the `distinct` of the select, and the
set semantics of `found.update(...)`). -/
def dedupKeepFirst (xs : List String) : List String :=
  xs.foldl (fun acc u => if acc.contains u then acc else acc ++ [u]) []

/-- Execute one generated statement
`select distinct uuid from attributes where ...` against the store;
`none` models a SQL error. -/
def runStmt (stmt : String) (db : DB) : Option (List String) := do
  let toks ← tokenize stmt
  match toks with
  | .ident "select" :: .ident "distinct" :: .ident "uuid" :: .ident "from"
      :: .ident "attributes" :: .ident "where" :: rest => do
      let w ← parseWhere rest
      pure (dedupKeepFirst
        ((db.attrs.filter (fun a => evalWhere w a)).map (fun a => a.uuid)))
  | _ => Option.none

/-- `'name="%s" AND value="%s"' % (name, v)`. -/
def buildClause (name v : String) : String :=
  "name=\"" ++ name ++ "\" AND value=\"" ++ v ++ "\""

/-- `'select distinct uuid from attributes where ' + ' OR '.join(value_list)`. -/
def buildStmt (name : String) (values : List String) : String :=
  "select distinct uuid from attributes where " ++
    String.intercalate " OR " (values.map (buildClause name))

/-- Stable insertion into a name-sorted attribute list. -/
def insertSortedAttr (x : String × AttrVal) :
    List (String × AttrVal) → List (String × AttrVal)
  | [] => [x]
  | y :: ys => if x.1 < y.1 then x :: y :: ys else y :: insertSortedAttr x ys

/-- `sorted(attributes.items())` (kwarg names are unique, so sorting by
name alone is exact). -/
def sortAttrs (attrs : List (String × AttrVal)) : List (String × AttrVal) :=
  attrs.foldr insertSortedAttr []

/-- One step of the candidate-collection loop of `find_node`: skip a falsy
attribute value, otherwise run the generated statement and union the
returned uuids into `found` (a raised database error propagates). -/
def findStep (db : DB) (found : List String) (nv : String × AttrVal) :
    Except Err (List String) :=
  if nv.2.falsy then pure found
  else
    match runStmt (buildStmt nv.1 nv.2.toList) db with
    | Option.none => .error Err.sqlError
    | some rows =>
        pure (rows.foldl (fun f u => if f.contains u then f else f ++ [u])
          found)

/-- The candidate-collection loop of `find_node` over the sorted
attributes. -/
def findCandidates (attrs : List (String × AttrVal)) (db : DB) :
    Except Err (List String) :=
  (sortAttrs attrs).foldlM (findStep db) []

/-- `find_node(**attributes)` (`node_cache.py` lines 453-517): collect the
candidate uuids; zero hits raise `NotFoundInCacheError`, several hits the
404 ambiguous error; on exactly one hit, build a `NodeInfo`, acquire its
lock (blocking — `none` when the caller would block), re-read
`started_at`/`finished_at` under the lock; the `save_and_reraise` handler
calls `release_lock()` before either failure propagates.  Returns the
outcome together with the lock registry on exit. -/
def find_node (attrs : List (String × AttrVal)) (db : DB) (locks : Locks) :
    Option (Except Err NodeInfo × Locks) :=
  match findCandidates attrs db with
  | .error e => some (.error e, locks)
  | .ok [] => some (.error Err.notFoundInCache, locks)
  | .ok [u] =>
    let ni : NodeInfo := ⟨u, Option.none, Option.none, Option.none, false⟩
    match ni.acquireLock true locks with
    | Option.none => Option.none
    | some (_, ni, locks) =>
      match db.getNode u with
      | Option.none =>
        let (_, locks) := ni.releaseLock locks
        some (.error (Err.notFound u), locks)
      | some row =>
        match row.finished_at with
        | some f =>
          let (_, locks) := ni.releaseLock locks
          some (.error (Err.alreadyFinished f), locks)
        | Option.none =>
            some (.ok { ni with started_at := some row.started_at }, locks)
  | .ok found => some (.error (Err.ambiguousLookup found), locks)

/-! Embeddings from `process.py`. -/

/-- `_CREDENTIALS_WAIT_RETRIES` (`process.py` line 40). -/
def CREDENTIALS_WAIT_RETRIES : Nat := 10

/-- `_CREDENTIALS_WAIT_PERIOD` (`process.py` line 41). -/
def CREDENTIALS_WAIT_PERIOD : Nat := 3

/-- Result of the identification part of `process` (`process.py` lines
185-220): the raised error or the continuation's result, the `NodeInfo`
handle as it stands on exit (when one exists), and the store and lock
registry on exit. -/
structure PRes where
  result : Except Err Unit
  nodeInfo : Option NodeInfo
  db : DB
  locks : Locks
  deriving Repr

/-- `process(introspection_data)` (`process.py` lines 185-220), after the
pre-hooks and `_find_node_info` produced `failures` and `found`.  The
source: lock the handle (blocking — `none` models waiting on another
holder); with failures or no handle, record the failures via `finished`
(when a handle exists) and raise; with `finished_at` set, raise the
400-class already-finished error — performing no store write and no lock
release; otherwise continue with the rest of the pipeline (`rest`). -/
def process (failures : List String) (found : Option NodeInfo) (now : Int)
    (db : DB) (locks : Locks) (rest : NodeInfo → DB → Locks → PRes) :
    Option PRes :=
  match found with
  | some ni =>
    match ni.acquireLock true locks with
    | Option.none => Option.none
    | some (_, ni, locks) =>
      if !failures.isEmpty then
        let (ni, db, locks) :=
          finished ni (some (String.intercalate "\n" failures)) now db locks
        some ⟨.error (.processPreFailures failures), some ni, db, locks⟩
      else
        match ni.finished_at with
        | some _ =>
            some ⟨.error (.processAlreadyFinished ni.error), some ni, db, locks⟩
        | Option.none => some (rest ni db locks)
  | Option.none =>
      some ⟨.error (.processPreFailures failures), Option.none, db, locks⟩

/-- Events of the credential settler (`_finish_set_ipmi_credentials`). -/
inductive SEv
  | patchCreds
  | poll (attempt : Nat)
  | sleep (seconds : Nat)
  | runFinisher
  deriving Repr, DecidableEq

/-- The polling loop of `_finish_set_ipmi_credentials` (`process.py` lines
302-315): `for attempt in range(...)`, try `get_boot_device`; on failure
log and sleep `_CREDENTIALS_WAIT_PERIOD`, on success run `_finish` and
return.  `pollOk i` tells whether the `i`-th call succeeds.  Returns the
emitted events and whether a poll succeeded. -/
def settleLoopFrom (pollOk : Nat → Bool) : Nat → Nat → List SEv × Bool
  | 0, _ => ([], false)
  | rem + 1, i =>
    if pollOk i then ([.poll i], true)
    else
      let r := settleLoopFrom pollOk rem (i + 1)
      (.poll i :: .sleep CREDENTIALS_WAIT_PERIOD :: r.1, r.2)

/-- The maintenance-required message of `_finish_set_ipmi_credentials`. -/
def credentialsErrorMsg (uuid : String) : String :=
  "Failed to validate updated IPMI credentials for node " ++ uuid ++
    ", node might require maintenance"

/-- `_finish_set_ipmi_credentials` (`process.py` lines 290-320): patch the
new credentials into the node, poll `get_boot_device` up to
`_CREDENTIALS_WAIT_RETRIES` times sleeping `_CREDENTIALS_WAIT_PERIOD`
seconds after each failed attempt; on the first success run `_finish` and
return; on exhaustion mark the node `finished` with the
maintenance-required error and raise it. -/
def finishSetIpmiCredentials (pollOk : Nat → Bool) (ni : NodeInfo)
    (now : Int) (db : DB) (locks : Locks) :
    List SEv × (NodeInfo × DB × Locks) × Option Err :=
  let r := settleLoopFrom pollOk CREDENTIALS_WAIT_RETRIES 0
  if r.2 then
    (SEv.patchCreds :: r.1 ++ [SEv.runFinisher], (ni, db, locks), Option.none)
  else
    let msg := credentialsErrorMsg ni.uuid
    let (ni, db, locks) := finished ni (some msg) now db locks
    (SEv.patchCreds :: r.1, (ni, db, locks),
      some (Err.processPreFailures [msg]))

/-- `reapply(node_ident)` (`process.py` lines 350-372): fetch the node
without a lock, acquire its lock non-blockingly, raise the 409 locked
error when acquisition fails, and otherwise hand the locked handle to the
background `_reapply` task. -/
def reapply (u : String) (db : DB) (locks : Locks) :
    Option (Except Err (NodeInfo × Locks)) :=
  match get_node u false db locks with
  | Option.none => Option.none
  | some (.error e) => some (.error e)
  | some (.ok (ni, locks)) =>
    match ni.acquireLock false locks with
    | Option.none => Option.none
    | some (ok, ni, locks) =>
      if ok then some (.ok (ni, locks))
      else some (.error (Err.lockedErr u))

/-- Events of the background `_reapply` task and of `_finish`. -/
inductive REv
  | fetchBlob
  | preHooks
  | postPhase
  | powerOff
  | finishedCall (error : Option String)
  deriving Repr, DecidableEq

/-- Outcomes of the external calls `_reapply` makes, fixing one concrete
execution: whether the `UNPROCESSED` blob fetch succeeds, which pre-hook
failures accumulate, and whether the post phase (ports, post-hooks, data
store, rules, `_finish`) raises. -/
structure ReapplyEnv where
  fetchOk : Bool
  preFailures : List String
  postError : Option String
  deriving Repr, DecidableEq

/-- `_reapply(node_info)` (`process.py` lines 375-413): on a blob-fetch
failure, log, `release_lock()` and return; on pre-hook failures,
`finished(error=...)`; run the post phase and `_finish(..,
power_off=False)` — which performs no power-off and calls `finished()`
with no error; any exception there is recorded via `finished(error=...)`. -/
def reapplyTask (env : ReapplyEnv) (ni : NodeInfo) (now : Int)
    (db : DB) (locks : Locks) : NodeInfo × DB × Locks × List REv :=
  if !env.fetchOk then
    let (ni, locks) := ni.releaseLock locks
    (ni, db, locks, [.fetchBlob])
  else if !env.preFailures.isEmpty then
    let msg := String.intercalate "\n" env.preFailures
    let (ni, db, locks) := finished ni (some msg) now db locks
    (ni, db, locks, [.fetchBlob, .preHooks, .finishedCall (some msg)])
  else
    match env.postError with
    | some msg =>
      let (ni, db, locks) := finished ni (some msg) now db locks
      (ni, db, locks,
        [.fetchBlob, .preHooks, .postPhase, .finishedCall (some msg)])
    | Option.none =>
      let (ni, db, locks) := finished ni Option.none now db locks
      (ni, db, locks,
        [.fetchBlob, .preHooks, .postPhase, .finishedCall Option.none])

/-!
Embedding of `MatchesCondition.check` (`plugins/rules.py` lines 97-102).
The source appends `'$'` to the pattern string when its last character is
not `'$'` and then calls `re.match`.  We model the fragment of Python
regular expressions these rules need: plain characters, backslash-escaped
characters, and the `$` anchor (which in Python matches at the end of the
string or just before one trailing newline).  Patterns using other
metacharacters fall outside the fragment and parse to `none`. -/

/-- Pattern tokens: a (possibly escaped) literal character, or the `$`
anchor. -/
inductive RTok
  | lit (c : Char)
  | anchor
  deriving Repr, DecidableEq

/-- Python `re` metacharacters not modelled here. -/
def reMeta : List Char :=
  ['.', '^', '*', '+', '?', '(', ')', '[', ']', '\x7B', '\x7D', '|']

/-- Parse a pattern string of the modelled fragment: `\c` is the literal
`c`, `$` the anchor, any non-metacharacter a literal; a trailing lone
backslash or an unmodelled metacharacter yields `none`. -/
def parsePat : List Char → Option (List RTok)
  | [] => some []
  | c :: rest =>
    if c == '\\' then
      match rest with
      | [] => Option.none
      | d :: rest' => (parsePat rest').map (fun ts => RTok.lit d :: ts)
    else if c == '$' then (parsePat rest).map (fun ts => RTok.anchor :: ts)
    else if reMeta.contains c then Option.none
    else (parsePat rest).map (fun ts => RTok.lit c :: ts)

/-- Match a token list at the start of the subject (the semantics of
`re.match`), returning the unconsumed remainder on success.  The anchor
consumes nothing and succeeds at the end of the subject or just before one
trailing newline. -/
def reMatch : List RTok → List Char → Option (List Char)
  | [], s => some s
  | RTok.lit _ :: _, [] => Option.none
  | RTok.lit c :: ts, d :: s => if d == c then reMatch ts s else Option.none
  | RTok.anchor :: ts, s =>
    if s == [] || s == ['\n'] then reMatch ts s else Option.none

/-- `regexp[-1] == '$'`: whether the pattern's last character is a dollar
sign. -/
def patLastIsDollar (pattern : String) : Bool :=
  pattern.data.getLast? == some '$'

/-- The pattern actually compiled by `MatchesCondition.check`: the input
pattern, with `'$'` appended when its last character is not `'$'`. -/
def extendedPat (pattern : String) : String :=
  if patLastIsDollar pattern then pattern else pattern ++ "$"

/-- `MatchesCondition.check(field, {value: pattern})`: `none` when the
pattern is empty (`regexp[-1]` raises) or outside the modelled fragment;
otherwise whether `re.match` of the extended pattern against the string
form of the field succeeds. -/
def matchesCheck (pattern field : String) : Option Bool :=
  if pattern == "" then Option.none
  else
    (parsePat (extendedPat pattern).data).map
      (fun ts => (reMatch ts field.data).isSome)

/-- The terminal-state invariant of the data model: a node whose
`finished_at` is set owns no lookup-attribute rows and no option rows. -/
def Inv (db : DB) : Prop :=
  ∀ n ∈ db.nodes, n.finished_at ≠ Option.none →
    (∀ a ∈ db.attrs, a.uuid ≠ n.uuid) ∧ (∀ o ∈ db.opts, o.uuid ≠ n.uuid)

instance (db : DB) : Decidable (Inv db) := by
  unfold Inv; infer_instance

/-- The uuids selected by `clean_up`'s initial timed-out query (step 3 of
the source: after the status purge, `started_at < now − timeout` and
`finished_at` null), or the empty list when `timeout ≤ 0`. -/
def timeoutSelection (cfg : Config) (now : Int) (db : DB) : List String :=
  let keepThreshold := now - cfg.node_status_keep_time
  let purged := db.nodes.filter (fun n =>
    match n.finished_at with
    | some t => !decide (t < keepThreshold)
    | Option.none => true)
  if cfg.timeout ≤ 0 then []
  else
    (purged.filter (fun n =>
      decide (n.started_at < now - cfg.timeout) && n.finished_at.isNone)).map
      (fun n => n.uuid)

/-!  Theorems. -/

/-- C1 (counterexample): the claim that the durable update of
`NodeInfo.finished` happens only while the caller holds the node's lock is
false: running `finished` on a handle that holds the lock produces a trace
whose `dbUpdateNode` mutation is performed with the lock already released
(the source calls `release_lock()` first). -/
theorem C1_counterexample :
    ∃ p ∈ (finishedTr ⟨"u", some 0, Option.none, Option.none, true⟩
        (some "boom") 7 ⟨[⟨"u", 0, Option.none, Option.none⟩], [], []⟩
        ["u"]).2.2.2,
      p.1.isMutation = true ∧ p.2 = false := by decide

/-- C1 (amended): `NodeInfo.finished` releases the per-uuid lock first and
only then performs its durable update, so every durable mutation in its
trace happens while the caller no longer holds the lock, and the handle
exits unlocked. -/
theorem C1_finished_mutates_after_release (ni : NodeInfo) (err : Option String)
    (now : Int) (db : DB) (locks : Locks) :
    (∀ p ∈ (finishedTr ni err now db locks).2.2.2,
      p.1.isMutation = true → p.2 = false) ∧
    (finishedTr ni err now db locks).1.locked = false := by
  constructor
  · intro p hp hmut
    simp only [finishedTr, NodeInfo.releaseLock] at hp
    by_cases h : ni.locked <;>
      simp [h] at hp <;>
        rcases hp with rfl | rfl | rfl | rfl <;>
          simp_all [Ev.isMutation]
  · simp only [finishedTr, NodeInfo.releaseLock]
    by_cases h : ni.locked <;> simp [h]

/-- C1 (witness): the amended theorem applied at a concrete locked handle
and the `dbUpdateNode` entry of its trace. -/
theorem C1_witness : ((Ev.dbUpdateNode, false) : Ev × Bool).2 = false :=
  (C1_finished_mutates_after_release ⟨"u", some 0, Option.none, Option.none,
      true⟩ (some "boom") 7 ⟨[⟨"u", 0, Option.none, Option.none⟩], [], []⟩
      ["u"]).1 (Ev.dbUpdateNode, false) (by decide) (by decide)

/-- C5 (counterexample): with `timeout = 0` the sweep still performs the
status purge: a terminated node older than `status_keep_time` is dropped
from the store, so `clean_up` does not leave every node record unchanged. -/
theorem C5_counterexample :
    clean_up_seq ⟨0, 10⟩ 100 ⟨[⟨"u", 0, some 5, Option.none⟩], [], []⟩ [] =
      some (.ok (⟨[], [], []⟩, [], [])) ∧
    (⟨[], [], []⟩ : DB) ≠ ⟨[⟨"u", 0, some 5, Option.none⟩], [], []⟩ := by
  decide

/-- C5 (amended): when `timeout ≤ 0`, `clean_up` returns the empty list and
performs no timeout processing; its only effect is the status purge, which
drops exactly the terminated rows with `finished_at` older than
`now − node_status_keep_time` and leaves attributes and options unchanged. -/
theorem C5_cleanup_nonpositive_timeout (cfg : Config) (now : Int)
    (env : Nat → DB → DB) (db : DB) (locks : Locks)
    (h : cfg.timeout ≤ 0) :
    clean_up cfg now env db locks =
      some (.ok ({ db with nodes := db.nodes.filter (fun n =>
        match n.finished_at with
        | some t => !decide (t < now - cfg.node_status_keep_time)
        | Option.none => true) }, locks, [])) := by
  simp [clean_up, h]

/-- C5 (witness): the amended theorem at `timeout = 0` on a store holding
one stale terminated node. -/
theorem C5_witness :
    clean_up ⟨0, 10⟩ 100 (fun _ db => db)
      ⟨[⟨"u", 0, some 5, Option.none⟩], [], []⟩ [] =
      some (.ok (⟨[], [], []⟩, [], [])) := by
  simpa using C5_cleanup_nonpositive_timeout ⟨0, 10⟩ 100 (fun _ db => db)
    ⟨[⟨"u", 0, some 5, Option.none⟩], [], []⟩ [] (by decide)

/-- C10: when `process` identifies a node whose `finished_at` is set, it
raises the 400-class already-finished error, leaves the store (node
record, attributes, options) untouched, and exits with the handle still
holding the per-uuid lock it acquired during identification — the lock
registry is unchanged and no release happens. -/
theorem C10_process_already_finished (ni : NodeInfo) (t : Int) (now : Int)
    (db : DB) (locks : Locks) (rest : NodeInfo → DB → Locks → PRes)
    (hl : ni.locked = true) (hf : ni.finished_at = some t) :
    process [] (some ni) now db locks rest =
      some ⟨.error (.processAlreadyFinished ni.error), some ni, db, locks⟩ ∧
    (Err.processAlreadyFinished ni.error).code = 400 := by
  refine ⟨?_, rfl⟩
  simp [process, NodeInfo.acquireLock, hl, hf]

lemma Inv_filter_nodes (db : DB) (p : NodeRow → Bool) (h : Inv db) :
    Inv { db with nodes := db.nodes.filter p } := by
  intro n hn hfin
  exact h n (List.mem_filter.1 hn).1 hfin

lemma Inv_timeout_update (db : DB) (u : String) (t : Int) (e : Option String)
    (h : Inv db) :
    Inv (((db.updateNodeFinished u t e).deleteAttrsOf u).deleteOptsOf u) := by
  intro n hn hfin
  simp only [DB.updateNodeFinished, DB.deleteAttrsOf, DB.deleteOptsOf,
    List.mem_map] at hn
  obtain ⟨m, hm, rfl⟩ := hn
  by_cases hu : m.uuid == u
  · constructor
    · intro a ha
      have := (List.mem_filter.1 ha).2
      simp_all
    · intro o ho
      have := (List.mem_filter.1 ho).2
      simp_all
  · simp only [hu, if_neg, Bool.false_eq_true, not_false_eq_true, ite_false]
      at hfin ⊢
    obtain ⟨ha, ho⟩ := h m hm (by simpa using hfin)
    exact ⟨fun a hA => ha a (List.mem_filter.1 hA).1,
           fun o hO => ho o (List.mem_filter.1 hO).1⟩

lemma Inv_deleteNode (db : DB) (u : String) (h : Inv db) :
    Inv (db.deleteNode u) := by
  intro n hn hfin
  simp only [DB.deleteNode, DB.deleteAttrsOf, DB.deleteOptsOf,
    DB.deleteNodeRow] at hn ⊢
  obtain ⟨hmem, -⟩ := List.mem_filter.1 hn
  obtain ⟨ha, ho⟩ := h n hmem hfin
  exact ⟨fun a hA => ha a (List.mem_filter.1 hA).1,
         fun o hO => ho o (List.mem_filter.1 hO).1⟩

lemma addAttribute_spec (u name : String) :
    ∀ (vs : List String) (db db' : DB), addAttribute u name vs db = .ok db' →
      db'.nodes = db.nodes ∧ db'.opts = db.opts ∧
      ∃ extra, db'.attrs = db.attrs ++ extra ∧ ∀ r ∈ extra, r.uuid = u := by
  intro vs
  induction vs with
  | nil =>
    intro db db' h
    simp only [addAttribute, List.foldlM] at h
    cases h
    exact ⟨rfl, rfl, [], by simp, by simp⟩
  | cons v vs ih =>
    intro db db' h
    rw [show addAttribute u name (v :: vs) db =
        (if db.attrs.any (fun a => a.name == name && a.value == v) then
            Except.error (Err.duplicateAttribute name)
          else Except.ok { db with attrs := db.attrs ++ [⟨name, v, u⟩] }) >>=
          (fun b => addAttribute u name vs b) from rfl] at h
    by_cases hdup : db.attrs.any (fun a => a.name == name && a.value == v)
    · rw [if_pos hdup] at h
      exact Except.noConfusion h
    · rw [if_neg hdup] at h
      obtain ⟨h1, h2, extra, h3, h4⟩ := ih _ _ h
      refine ⟨h1, h2, ⟨name, v, u⟩ :: extra, ?_, ?_⟩
      · rw [h3]; simp
      · intro r hr
        cases List.mem_cons.1 hr with
        | inl hh => subst hh; rfl
        | inr hh => exact h4 r hh

lemma addNodeFold_spec (u : String) :
    ∀ (attrs : List (String × AttrVal)) (db db' : DB),
      attrs.foldlM (fun db nv =>
        if nv.2.falsy then pure db else addAttribute u nv.1 nv.2.toList db) db
        = .ok db' →
      db'.nodes = db.nodes ∧ db'.opts = db.opts ∧
      ∃ extra, db'.attrs = db.attrs ++ extra ∧ ∀ r ∈ extra, r.uuid = u := by
  intro attrs
  induction attrs with
  | nil =>
    intro db db' h
    cases h
    exact ⟨rfl, rfl, [], by simp, by simp⟩
  | cons nv rest ih =>
    intro db db' h
    rw [show (nv :: rest).foldlM (fun db nv =>
        if nv.2.falsy then pure db else addAttribute u nv.1 nv.2.toList db) db =
        (if nv.2.falsy then pure db else addAttribute u nv.1 nv.2.toList db) >>=
          (fun b => rest.foldlM (fun db nv =>
            if nv.2.falsy then pure db
            else addAttribute u nv.1 nv.2.toList db) b) from rfl] at h
    by_cases hf : nv.2.falsy
    · rw [if_pos hf] at h
      exact ih _ _ h
    · rw [if_neg hf] at h
      cases ha : addAttribute u nv.1 nv.2.toList db with
      | error e => rw [ha] at h; exact Except.noConfusion h
      | ok db1 =>
        rw [ha] at h
        obtain ⟨g1, g2, e1, g3, g4⟩ := addAttribute_spec u nv.1 _ _ _ ha
        obtain ⟨h1, h2, e2, h3, h4⟩ := ih _ _ h
        refine ⟨h1.trans g1, h2.trans g2, e1 ++ e2, ?_, ?_⟩
        · rw [h3, g3, List.append_assoc]
        · intro r hr
          cases List.mem_append.1 hr with
          | inl hh => exact g4 r hh
          | inr hh => exact h4 r hh

lemma cleanUpLoop_inv (threshold now : Int) :
    ∀ (us : List String) (i : Nat) (db : DB) (locks : Locks)
      (db' : DB) (locks' : Locks),
      Inv db →
      cleanUpLoop threshold now (fun _ d => d) us i db locks =
        some (.ok (db', locks')) →
      Inv db' := by
  intro us
  induction us with
  | nil =>
    intro i db locks db' locks' h hloop
    simp only [cleanUpLoop, Option.some.injEq, Except.ok.injEq] at hloop
    obtain ⟨rfl, -⟩ := hloop
    exact h
  | cons u rest ih =>
    intro i db locks db' locks' h hloop
    rw [show cleanUpLoop threshold now (fun _ d => d) (u :: rest) i db locks =
        (if locks.contains u then Option.none
         else match db.getNode u with
          | Option.none => some (.error (Err.notFound u))
          | some row =>
            if row.finished_at.isSome || decide (row.started_at > threshold) then
              cleanUpLoop threshold now (fun _ d => d) rest (i + 1) db locks
            else
              cleanUpLoop threshold now (fun _ d => d) rest (i + 1)
                (((db.updateNodeFinished u now
                  (some "Introspection timeout")).deleteAttrsOf u).deleteOptsOf
                  u) locks) from rfl] at hloop
    by_cases hc : locks.contains u
    · rw [if_pos hc] at hloop
      exact Option.noConfusion hloop
    · rw [if_neg hc] at hloop
      cases hg : db.getNode u with
      | none =>
        simp only [hg] at hloop
        exact Except.noConfusion (Option.some.inj hloop)
      | some row =>
        simp only [hg] at hloop
        by_cases hskip :
            (row.finished_at.isSome || decide (row.started_at > threshold)) = true
        · rw [if_pos hskip] at hloop
          exact ih _ _ _ _ _ h hloop
        · rw [if_neg hskip] at hloop
          exact ih _ _ _ _ _ (Inv_timeout_update _ _ _ _ h) hloop

/-- C3 (counterexample): `set_option` writes its option row without
checking `finished_at`, so it does not preserve the invariant: on a store
satisfying it that holds one finished node, `set_option` for that node
introduces an option row and breaks the invariant. -/
theorem C3_counterexample :
    Inv ⟨[⟨"u", 0, some 5, Option.none⟩], [], []⟩ ∧
    ¬ Inv (setOption ⟨"u", some 0, some 5, Option.none, false⟩ "k" "v"
        ⟨[⟨"u", 0, some 5, Option.none⟩], [], []⟩) := by decide

/-- C3 (amended): the invariant "`finished_at != null` implies zero
attributes and zero options" is preserved by `add_node`, `finished`,
`clean_up`, and node deletion; `set_option` preserves it only under the
pipeline's contract that its target node is unfinished. -/
theorem C3_invariant_preservation :
    (∀ (u : String) (attrs : List (String × AttrVal)) (now : Int) (db : DB)
        (ni : NodeInfo) (db' : DB), Inv db →
        add_node u attrs now db = .ok (ni, db') → Inv db') ∧
    (∀ (ni : NodeInfo) (err : Option String) (now : Int) (db : DB)
        (locks : Locks), Inv db → Inv (finished ni err now db locks).2.1) ∧
    (∀ (cfg : Config) (now : Int) (db : DB) (locks : Locks) (db' : DB)
        (locks' : Locks) (us : List String), Inv db →
        clean_up_seq cfg now db locks = some (.ok (db', locks', us)) →
        Inv db') ∧
    (∀ (ni : NodeInfo) (name v : String) (db : DB), Inv db →
        (∀ n ∈ db.nodes, n.uuid = ni.uuid → n.finished_at = Option.none) →
        Inv (setOption ni name v db)) ∧
    (∀ (u : String) (db : DB), Inv db → Inv (db.deleteNode u)) := by
  refine ⟨?_, ?_, ?_, ?_, ?_⟩
  · intro u attrs now db ni db' h hadd
    rw [show add_node u attrs now db =
        (attrs.foldlM (fun db nv =>
          if nv.2.falsy then pure db else addAttribute u nv.1 nv.2.toList db)
          { db.deleteNode u with
            nodes := (db.deleteNode u).nodes ++
              [⟨u, now, Option.none, Option.none⟩] }) >>=
          (fun db1 => pure (⟨u, some now, Option.none, Option.none, false⟩,
            db1)) from rfl] at hadd
    cases hfold : attrs.foldlM (fun db nv =>
        if nv.2.falsy then pure db else addAttribute u nv.1 nv.2.toList db)
        { db.deleteNode u with
          nodes := (db.deleteNode u).nodes ++
            [⟨u, now, Option.none, Option.none⟩] } with
    | error e => rw [hfold] at hadd; exact Except.noConfusion hadd
    | ok db1 =>
      rw [hfold] at hadd
      obtain ⟨-, rfl⟩ := Prod.mk.inj (Except.ok.inj hadd)
      obtain ⟨h1, h2, extra, h3, h4⟩ := addNodeFold_spec u attrs _ _ hfold
      intro n hn hfin
      rw [h1] at hn
      rcases List.mem_append.1 hn with hn | hn
      · have hn' : n ∈ db.nodes ∧ ¬n.uuid = u := by
          simpa [DB.deleteNode, DB.deleteAttrsOf, DB.deleteOptsOf,
            DB.deleteNodeRow] using hn
        obtain ⟨ha, ho⟩ := h n hn'.1 hfin
        constructor
        · intro a hA
          rw [h3] at hA
          rcases List.mem_append.1 hA with hA | hA
          · have hA' : a ∈ db.attrs ∧ ¬a.uuid = u := by
              simpa [DB.deleteNode, DB.deleteAttrsOf, DB.deleteOptsOf,
                DB.deleteNodeRow] using hA
            exact ha a hA'.1
          · rw [h4 a hA]
            exact fun hEq => hn'.2 hEq.symm
        · intro o hO
          rw [h2] at hO
          have hO' : o ∈ db.opts ∧ ¬o.uuid = u := by
            simpa [DB.deleteNode, DB.deleteAttrsOf, DB.deleteOptsOf,
              DB.deleteNodeRow] using hO
          exact ho o hO'.1
      · have : n = ⟨u, now, Option.none, Option.none⟩ := by simpa using hn
        subst this
        exact absurd rfl hfin
  · intro ni err now db locks h
    by_cases hl : ni.locked <;>
      simpa [finished, finishedTr, NodeInfo.releaseLock, hl] using
        Inv_timeout_update db ni.uuid now err h
  · intro cfg now db locks db' locks' us h hcl
    rw [show clean_up_seq cfg now db locks =
        clean_up cfg now (fun _ d => d) db locks from rfl] at hcl
    simp only [clean_up] at hcl
    split at hcl
    · obtain ⟨h1, -⟩ := Prod.mk.inj (Except.ok.inj (Option.some.inj hcl))
      exact h1 ▸ Inv_filter_nodes db _ h
    · split at hcl
      · obtain ⟨h1, -⟩ := Prod.mk.inj (Except.ok.inj (Option.some.inj hcl))
        exact h1 ▸ Inv_filter_nodes db _ h
      · rw [Option.map_eq_some'] at hcl
        obtain ⟨r, hL, hr⟩ := hcl
        cases r with
        | error e => simp [Except.map] at hr
        | ok p =>
          simp only [Except.map, Except.ok.injEq] at hr
          obtain ⟨rfl, -⟩ := Prod.mk.inj hr
          exact cleanUpLoop_inv _ _ _ _ _ _ p.1 p.2
            (Inv_filter_nodes db _ h) hL
  · intro ni name v db h hact n hn hfin
    obtain ⟨ha, ho⟩ := h n hn hfin
    refine ⟨fun a hA => ha a hA, ?_⟩
    intro o hO
    rcases List.mem_append.1 hO with hO | hO
    · exact ho o (List.mem_filter.1 hO).1
    · have : o = ⟨ni.uuid, name, v⟩ := by simpa using hO
      subst this
      intro hEq
      exact hfin (hact n hn hEq.symm)
  · exact fun u db h => Inv_deleteNode db u h

/-- C3 (witness): the `set_option` conjunct of the amended theorem at a
store holding one active node. -/
theorem C3_witness :
    Inv (setOption ⟨"u", some 0, Option.none, Option.none, false⟩ "k" "v"
      ⟨[⟨"u", 5, Option.none, Option.none⟩], [], []⟩) :=
  C3_invariant_preservation.2.2.2.1 ⟨"u", some 0, Option.none, Option.none,
    false⟩ "k" "v" ⟨[⟨"u", 5, Option.none, Option.none⟩], [], []⟩
    (by decide) (by decide)

/-- C6 (counterexample): when the background `_reapply` task fails to fetch
the `UNPROCESSED` blob, it releases the lock but records no error on the
node: the store is unchanged and the handle's `error` stays null, contrary
to the claim that any failure records the error. -/
theorem C6_counterexample :
    reapplyTask ⟨false, [], Option.none⟩
        ⟨"u", some 0, Option.none, Option.none, true⟩ 50
        ⟨[⟨"u", 0, Option.none, Option.none⟩], [], []⟩ ["u"] =
      (⟨"u", some 0, Option.none, Option.none, false⟩,
       ⟨[⟨"u", 0, Option.none, Option.none⟩], [], []⟩, [],
       [REv.fetchBlob]) := by decide

/-- C6 (amended): `reapply` acquires the lock non-blockingly and fails with
the 409 `Locked` error when the lock is held (returning a locked handle
otherwise); the background task releases the lock on every path, but a
failure to fetch the `UNPROCESSED` blob records no error (store unchanged,
`error` untouched), while pre-hook failures and post-phase exceptions
record the error durably via `finished`; a successful run finishes with no
error and performs no power-off. -/
theorem C6_reapply_and_task :
    (∀ (u : String) (db : DB) (locks : Locks) (row : NodeRow),
      db.getNode u = some row → locks.contains u = true →
      reapply u db locks = some (.error (Err.lockedErr u)) ∧
      (Err.lockedErr u).code = 409) ∧
    (∀ (u : String) (db : DB) (locks : Locks) (row : NodeRow),
      db.getNode u = some row → locks.contains u = false →
      reapply u db locks =
        some (.ok (⟨u, some row.started_at, row.finished_at, row.error,
          true⟩, u :: locks))) ∧
    (∀ (env : ReapplyEnv) (ni : NodeInfo) (now : Int) (db : DB)
        (locks : Locks), ni.locked = true →
      ((reapplyTask env ni now db locks).1.locked = false) ∧
      (env.fetchOk = false →
        reapplyTask env ni now db locks =
          ({ ni with locked := false }, db, locks.erase ni.uuid,
            [REv.fetchBlob])) ∧
      (env.fetchOk = true → env.preFailures ≠ [] →
        (reapplyTask env ni now db locks).1.error =
          some (String.intercalate "\n" env.preFailures) ∧
        (reapplyTask env ni now db locks).1.finished_at = some now ∧
        (reapplyTask env ni now db locks).2.1 =
          ((db.updateNodeFinished ni.uuid now
            (some (String.intercalate "\n" env.preFailures))).deleteAttrsOf
              ni.uuid).deleteOptsOf ni.uuid) ∧
      (∀ msg, env.fetchOk = true → env.preFailures = [] →
        env.postError = some msg →
        (reapplyTask env ni now db locks).1.error = some msg ∧
        (reapplyTask env ni now db locks).1.finished_at = some now ∧
        (reapplyTask env ni now db locks).2.1 =
          ((db.updateNodeFinished ni.uuid now
            (some msg)).deleteAttrsOf ni.uuid).deleteOptsOf ni.uuid) ∧
      (env.fetchOk = true → env.preFailures = [] →
        env.postError = Option.none →
        (reapplyTask env ni now db locks).1.error = Option.none ∧
        (reapplyTask env ni now db locks).1.finished_at = some now ∧
        REv.powerOff ∉ (reapplyTask env ni now db locks).2.2.2)) := by
  refine ⟨?_, ?_, ?_⟩
  · intro u db locks row hg hc
    have hu : row.uuid = u := by simpa using List.find?_some hg
    have hm : u ∈ locks := by simpa using hc
    refine ⟨?_, rfl⟩
    simp [reapply, get_node, hg, NodeInfo.acquireLock, hu, hm]
  · intro u db locks row hg hc
    have hu : row.uuid = u := by simpa using List.find?_some hg
    have hm : u ∉ locks := by simpa using hc
    simp [reapply, get_node, hg, NodeInfo.acquireLock, hu, hm]
  · intro env ni now db locks hl
    refine ⟨?_, ?_, ?_, ?_, ?_⟩
    · cases hf : env.fetchOk with
      | false =>
        simp [reapplyTask, hf, NodeInfo.releaseLock, hl]
      | true =>
        by_cases hpre : env.preFailures.isEmpty
        · cases hpost : env.postError with
          | none =>
            simp [reapplyTask, hf, hpre, hpost, finished, finishedTr,
              NodeInfo.releaseLock, hl]
          | some msg =>
            simp [reapplyTask, hf, hpre, hpost, finished, finishedTr,
              NodeInfo.releaseLock, hl]
        · simp [reapplyTask, hf, hpre, finished, finishedTr,
            NodeInfo.releaseLock, hl]
    · intro hf
      simp [reapplyTask, hf, NodeInfo.releaseLock, hl]
    · intro hf hpre
      have hpre' : env.preFailures.isEmpty = false := by
        cases hp : env.preFailures with
        | nil => exact absurd hp hpre
        | cons a l => simp [hp]
      simp [reapplyTask, hf, hpre', finished, finishedTr,
        NodeInfo.releaseLock, hl]
    · intro msg hf hpre hpost
      simp [reapplyTask, hf, hpre, hpost, finished, finishedTr,
        NodeInfo.releaseLock, hl]
    · intro hf hpre hpost
      simp [reapplyTask, hf, hpre, hpost, finished, finishedTr,
        NodeInfo.releaseLock, hl]

/-- C6 (witness): the blob-fetch-failure conjunct of the amended theorem at
a concrete locked handle. -/
theorem C6_witness :
    reapplyTask ⟨false, [], Option.none⟩
        ⟨"v", some 1, Option.none, Option.none, true⟩ 9
        ⟨[⟨"v", 1, Option.none, Option.none⟩], [], []⟩ ["v"] =
      (⟨"v", some 1, Option.none, Option.none, false⟩,
       ⟨[⟨"v", 1, Option.none, Option.none⟩], [], []⟩,
       (["v"] : Locks).erase "v", [REv.fetchBlob]) :=
  ((C6_reapply_and_task.2.2 ⟨false, [], Option.none⟩
    ⟨"v", some 1, Option.none, Option.none, true⟩ 9
    ⟨[⟨"v", 1, Option.none, Option.none⟩], [], []⟩ ["v"] rfl).2.1) rfl

lemma settleLoopFrom_all_fail (pollOk : Nat → Bool) :
    ∀ (rem i : Nat), (∀ j, i ≤ j → j < i + rem → pollOk j = false) →
      settleLoopFrom pollOk rem i =
        ((List.range' i rem).flatMap
          (fun j => [SEv.poll j, SEv.sleep CREDENTIALS_WAIT_PERIOD]), false) := by
  intro rem
  induction rem with
  | zero => intro i hall; simp [settleLoopFrom]
  | succ rem ih =>
    intro i hall
    have h0 : pollOk i = false := hall i le_rfl (by omega)
    rw [show settleLoopFrom pollOk (rem + 1) i =
        (if pollOk i then ([SEv.poll i], true)
         else
          let r := settleLoopFrom pollOk rem (i + 1)
          (SEv.poll i :: SEv.sleep CREDENTIALS_WAIT_PERIOD :: r.1, r.2))
        from rfl, h0]
    simp only [Bool.false_eq_true, if_neg, not_false_eq_true]
    rw [ih (i + 1) (fun j h1 h2 => hall j (by omega) (by omega))]
    simp [List.range']

lemma settleLoopFrom_first_success (pollOk : Nat → Bool) :
    ∀ (rem i k : Nat), i ≤ k → k < i + rem → pollOk k = true →
      (∀ j, i ≤ j → j < k → pollOk j = false) →
      settleLoopFrom pollOk rem i =
        ((List.range' i (k - i)).flatMap
          (fun j => [SEv.poll j, SEv.sleep CREDENTIALS_WAIT_PERIOD]) ++
          [SEv.poll k], true) := by
  intro rem
  induction rem with
  | zero => intro i k h1 h2; omega
  | succ rem ih =>
    intro i k h1 h2 hk hmin
    rcases Nat.eq_or_lt_of_le h1 with rfl | hlt
    · rw [show settleLoopFrom pollOk (rem + 1) i =
          (if pollOk i then ([SEv.poll i], true)
           else
            let r := settleLoopFrom pollOk rem (i + 1)
            (SEv.poll i :: SEv.sleep CREDENTIALS_WAIT_PERIOD :: r.1, r.2))
          from rfl, hk]
      simp [List.range']
    · have h0 : pollOk i = false := hmin i le_rfl hlt
      rw [show settleLoopFrom pollOk (rem + 1) i =
          (if pollOk i then ([SEv.poll i], true)
           else
            let r := settleLoopFrom pollOk rem (i + 1)
            (SEv.poll i :: SEv.sleep CREDENTIALS_WAIT_PERIOD :: r.1, r.2))
          from rfl, h0]
      simp only [Bool.false_eq_true, if_neg, not_false_eq_true]
      rw [ih (i + 1) k hlt (by omega) hk
        (fun j ha hb => hmin j (by omega) hb)]
      have hs : k - i = (k - (i + 1)) + 1 := by omega
      rw [hs, show List.range' i ((k - (i + 1)) + 1) =
        i :: List.range' (i + 1) (k - (i + 1)) from rfl]
      simp

/-- C8: the credential settler patches the credentials first, then polls
`get_boot_device` at most `_CREDENTIALS_WAIT_RETRIES = 10` times, sleeping
`_CREDENTIALS_WAIT_PERIOD = 3` seconds after each failed attempt; on the
first successful poll (attempt `k`) it runs the finisher and stops; when
every attempt fails it marks the node finished with the
maintenance-required error and raises it. -/
theorem C8_credentials_settler (pollOk : Nat → Bool) (ni : NodeInfo)
    (now : Int) (db : DB) (locks : Locks) :
    (CREDENTIALS_WAIT_RETRIES = 10 ∧ CREDENTIALS_WAIT_PERIOD = 3) ∧
    ((∀ j, j < CREDENTIALS_WAIT_RETRIES → pollOk j = false) →
      finishSetIpmiCredentials pollOk ni now db locks =
        (SEv.patchCreds :: (List.range' 0 CREDENTIALS_WAIT_RETRIES).flatMap
          (fun j => [SEv.poll j, SEv.sleep CREDENTIALS_WAIT_PERIOD]),
         finished ni (some (credentialsErrorMsg ni.uuid)) now db locks,
         some (Err.processPreFailures [credentialsErrorMsg ni.uuid]))) ∧
    (∀ k, k < CREDENTIALS_WAIT_RETRIES → pollOk k = true →
      (∀ j, j < k → pollOk j = false) →
      finishSetIpmiCredentials pollOk ni now db locks =
        (SEv.patchCreds :: ((List.range' 0 k).flatMap
          (fun j => [SEv.poll j, SEv.sleep CREDENTIALS_WAIT_PERIOD]) ++
          [SEv.poll k] ++ [SEv.runFinisher]),
         (ni, db, locks), Option.none)) := by
  refine ⟨⟨rfl, rfl⟩, ?_, ?_⟩
  · intro hall
    have hL := settleLoopFrom_all_fail pollOk CREDENTIALS_WAIT_RETRIES 0
      (fun j h1 h2 => hall j (by omega))
    simp [finishSetIpmiCredentials, hL]
  · intro k hk hok hmin
    have hL := settleLoopFrom_first_success pollOk CREDENTIALS_WAIT_RETRIES
      0 k (Nat.zero_le k) (by omega) hok (fun j h1 h2 => hmin j h2)
    simp [finishSetIpmiCredentials, hL]

/-- C8 (witness): the settler with polls that first succeed on attempt 2
runs the finisher after two failed attempts and two sleeps. -/
theorem C8_witness :
    finishSetIpmiCredentials (fun j => j == 2)
        ⟨"u", some 0, Option.none, Option.none, true⟩ 5
        ⟨[⟨"u", 0, Option.none, Option.none⟩], [], []⟩ ["u"] =
      (SEv.patchCreds :: ((List.range' 0 2).flatMap
        (fun j => [SEv.poll j, SEv.sleep CREDENTIALS_WAIT_PERIOD]) ++
        [SEv.poll 2] ++ [SEv.runFinisher]),
       (⟨"u", some 0, Option.none, Option.none, true⟩,
        ⟨[⟨"u", 0, Option.none, Option.none⟩], [], []⟩, ["u"]),
       Option.none) :=
  (C8_credentials_settler (fun j => j == 2)
    ⟨"u", some 0, Option.none, Option.none, true⟩ 5
    ⟨[⟨"u", 0, Option.none, Option.none⟩], [], []⟩ ["u"]).2.2 2
    (by decide) (by decide) (by decide)

lemma parsePat_append_dollar :
    ∀ (l : List Char) (ts : List RTok), parsePat l = some ts →
      parsePat (l ++ ['$']) = some (ts ++ [RTok.anchor]) := by
  intro l
  induction l using parsePat.induct with
  | case1 =>
    intro ts h
    cases h
    decide
  | case2 c hc =>
    intro ts h
    rw [parsePat.eq_def] at h
    simp only at h
    rw [if_pos hc] at h
    exact Option.noConfusion h
  | case3 c hc d rest' ih =>
    intro ts h
    rw [parsePat.eq_def] at h
    simp only at h
    rw [if_pos hc, Option.map_eq_some'] at h
    obtain ⟨ts0, h0, rfl⟩ := h
    rw [show ((c :: d :: rest') ++ ['$']) = c :: d :: (rest' ++ ['$'])
      from rfl, parsePat.eq_def]
    simp only
    rw [if_pos hc, ih ts0 h0]
    simp
  | case4 c rest' hc1 hc2 ih =>
    intro ts h
    rw [parsePat.eq_def] at h
    simp only at h
    rw [if_neg hc1, if_pos hc2, Option.map_eq_some'] at h
    obtain ⟨ts0, h0, rfl⟩ := h
    rw [List.cons_append, parsePat.eq_def]
    simp only
    rw [if_neg hc1, if_pos hc2, ih ts0 h0]
    simp
  | case5 c rest' hc1 hc2 hm =>
    intro ts h
    rw [parsePat.eq_def] at h
    simp only at h
    rw [if_neg hc1, if_neg hc2, if_pos hm] at h
    exact Option.noConfusion h
  | case6 c rest' hc1 hc2 hm ih =>
    intro ts h
    rw [parsePat.eq_def] at h
    simp only at h
    rw [if_neg hc1, if_neg hc2, if_neg hm, Option.map_eq_some'] at h
    obtain ⟨ts0, h0, rfl⟩ := h
    rw [List.cons_append, parsePat.eq_def]
    simp only
    rw [if_neg hc1, if_neg hc2, if_neg hm, ih ts0 h0]
    simp

lemma reMatch_last_anchor :
    ∀ (ts : List RTok) (s rem : List Char), ts.getLast? = some RTok.anchor →
      reMatch ts s = some rem → rem = [] ∨ rem = ['\n'] := by
  intro ts
  induction ts with
  | nil => intro s rem hlast; exact absurd hlast (by simp)
  | cons t ts ih =>
    intro s rem hlast hm
    cases ts with
    | nil =>
      have ht : t = RTok.anchor := by simpa using hlast
      subst ht
      simp only [reMatch] at hm
      by_cases hs : (s == [] || s == ['\n']) = true
      · rw [if_pos hs] at hm
        have hs' : s = [] ∨ s = ['\n'] := by simpa using hs
        cases hm
        exact hs' 
      · rw [if_neg hs] at hm
        exact Option.noConfusion hm
    | cons t2 ts2 =>
      have hlast' : (t2 :: ts2).getLast? = some RTok.anchor := by
        simpa [List.getLast?_cons_cons] using hlast
      cases t with
      | lit c =>
        cases s with
        | nil => exact Option.noConfusion hm
        | cons d s' =>
          simp only [reMatch] at hm
          by_cases hd : (d == c) = true
          · rw [if_pos hd] at hm
            exact ih s' rem hlast' hm
          · rw [if_neg hd] at hm
            exact Option.noConfusion hm
      | anchor =>
        simp only [reMatch] at hm
        by_cases hs : (s == [] || s == ['\n']) = true
        · rw [if_pos hs] at hm
          exact ih s rem hlast' hm
        · rw [if_neg hs] at hm
          exact Option.noConfusion hm

/-- C9 (counterexample): for the pattern `a\$` — whose final character is a
dollar sign, but escaped, so it is a literal and not an anchor — `matches`
appends nothing, and the check succeeds on the field `a$b` even though the
match stops before the end of the string (the remainder `b` is left
unconsumed). -/
theorem C9_counterexample :
    matchesCheck "a\\$" "a$b" = some true ∧
    parsePat (extendedPat "a\\$").data =
      some [RTok.lit 'a', RTok.lit '$'] ∧
    reMatch [RTok.lit 'a', RTok.lit '$'] "a$b".data = some ['b'] := by
  decide

/-- C9 (amended): `matches` appends `$` exactly when the pattern's final
character is not `$`; whenever the trailing dollar of the compiled pattern
is a genuine anchor (the pattern did not end in `$`, or its final token
parses as the anchor), a true result means the match extends to the end of
the string form of the field, or to just before one trailing newline
(Python's `$` semantics).  A pattern ending in an escaped `\$` is not
extended and may match strictly inside the string. -/
theorem C9_matches_end_anchor (pattern field : String) (ts : List RTok)
    (hne : pattern ≠ "")
    (hp : parsePat pattern.data = some ts)
    (hanchor : patLastIsDollar pattern = false ∨
      ts.getLast? = some RTok.anchor)
    (htrue : matchesCheck pattern field = some true) :
    ∃ ts' rem, parsePat (extendedPat pattern).data = some ts' ∧
      reMatch ts' field.data = some rem ∧ (rem = [] ∨ rem = ['\n']) := by
  have hne' : (pattern == "") = false := by
    simpa using hne
  rw [matchesCheck, if_neg (by simp [hne'])] at htrue
  by_cases hdol : patLastIsDollar pattern = true
  · have hl : ts.getLast? = some RTok.anchor := by
      rcases hanchor with hd | hl
      · rw [hdol] at hd
        exact absurd hd (by simp)
      · exact hl
    have hext : extendedPat pattern = pattern := by
      simp [extendedPat, hdol]
    rw [hext, hp] at htrue
    simp only [Option.map_some', Option.some.injEq] at htrue
    obtain ⟨rem, hrem⟩ := Option.isSome_iff_exists.mp htrue
    exact ⟨ts, rem, by rw [hext]; exact hp, hrem,
      reMatch_last_anchor ts field.data rem hl hrem⟩
  · have hd : patLastIsDollar pattern = false := by
      simpa using hdol
    have hext : (extendedPat pattern).data = pattern.data ++ ['$'] := by
      simp [extendedPat, hd, String.data_append]
    have hp' := parsePat_append_dollar pattern.data ts hp
    rw [hext, hp'] at htrue
    simp only [Option.map_some', Option.some.injEq] at htrue
    obtain ⟨rem, hrem⟩ := Option.isSome_iff_exists.mp htrue
    refine ⟨ts ++ [RTok.anchor], rem, by rw [hext]; exact hp', hrem, ?_⟩
    exact reMatch_last_anchor _ field.data rem (by simp) hrem

/-- C9 (witness): the amended theorem at the pattern `abc` (no trailing
dollar, so the anchor is appended) and the field `abc`. -/
theorem C9_witness :
    ∃ ts' rem, parsePat (extendedPat "abc").data = some ts' ∧
      reMatch ts' "abc".data = some rem ∧ (rem = [] ∨ rem = ['\n']) :=
  C9_matches_end_anchor "abc" "abc"
    [RTok.lit 'a', RTok.lit 'b', RTok.lit 'c']
    (by decide) (by decide) (Or.inl (by decide)) (by decide)

lemma find?_update_self (u : String) (t : Int) (e : Option String) :
    ∀ (nodes : List NodeRow) (r : NodeRow),
      nodes.find? (fun n => n.uuid == u) = some r →
      (nodes.map (fun n => if n.uuid == u then
          { n with finished_at := some t, error := e } else n)).find?
        (fun n => n.uuid == u) =
        some { r with finished_at := some t, error := e } := by
  intro nodes
  induction nodes with
  | nil => intro r h; exact Option.noConfusion h
  | cons m ms ih =>
    intro r h
    by_cases hm : (m.uuid == u) = true
    · rw [@List.find?_cons_of_pos _ (fun (n : NodeRow) => n.uuid == u) m ms hm] at h
      cases h
      simp only [List.map_cons, if_pos hm]
      rw [@List.find?_cons_of_pos _ (fun (n : NodeRow) => n.uuid == u)
        { m with finished_at := some t, error := e } _ hm]
    · rw [@List.find?_cons_of_neg _ (fun (n : NodeRow) => n.uuid == u) m ms
        (by simpa using hm)] at h
      simp only [List.map_cons, if_neg hm]
      rw [@List.find?_cons_of_neg _ (fun (n : NodeRow) => n.uuid == u) m _
        (by simpa using hm)]
      exact ih r h

lemma find?_update_ne (u u' : String) (t : Int) (e : Option String)
    (hne : u' ≠ u) :
    ∀ (nodes : List NodeRow),
      (nodes.map (fun n => if n.uuid == u then
          { n with finished_at := some t, error := e } else n)).find?
        (fun n => n.uuid == u') =
        nodes.find? (fun n => n.uuid == u') := by
  intro nodes
  induction nodes with
  | nil => rfl
  | cons m ms ih =>
    simp only [List.map_cons]
    by_cases hm : (m.uuid == u) = true
    · rw [if_pos hm]
      have hm' : (m.uuid == u') = false := by
        have hq : m.uuid = u := by simpa using hm
        rw [hq]
        simpa using fun hEq => hne hEq.symm
      rw [@List.find?_cons_of_neg _ (fun (n : NodeRow) => n.uuid == u')
          { m with finished_at := some t, error := e } _ (by simpa using hm'),
        @List.find?_cons_of_neg _ (fun (n : NodeRow) => n.uuid == u') m ms
          (by simpa using hm')]
      exact ih
    · rw [if_neg hm]
      by_cases hm' : (m.uuid == u') = true
      · rw [@List.find?_cons_of_pos _ (fun (n : NodeRow) => n.uuid == u') m _ hm',
          @List.find?_cons_of_pos _ (fun (n : NodeRow) => n.uuid == u') m ms hm']
      · rw [@List.find?_cons_of_neg _ (fun (n : NodeRow) => n.uuid == u') m _
            (by simpa using hm'),
          @List.find?_cons_of_neg _ (fun (n : NodeRow) => n.uuid == u') m ms
            (by simpa using hm')]
        exact ih

lemma getNode_of_nodup :
    ∀ (nodes : List NodeRow) (n : NodeRow),
      (nodes.map NodeRow.uuid).Nodup → n ∈ nodes →
      nodes.find? (fun m => m.uuid == n.uuid) = some n := by
  intro nodes
  induction nodes with
  | nil => intro n hnd hmem; cases hmem
  | cons m ms ih =>
    intro n hnd hmem
    simp only [List.map_cons, List.nodup_cons] at hnd
    rcases List.mem_cons.1 hmem with rfl | hmem'
    · rw [@List.find?_cons_of_pos _ (fun (m2 : NodeRow) => m2.uuid == n.uuid) n ms
        (by simp)]
    · have hne : m.uuid ≠ n.uuid := by
        intro hEq
        exact hnd.1 (hEq ▸ List.mem_map_of_mem NodeRow.uuid hmem')
      rw [@List.find?_cons_of_neg _ (fun (m2 : NodeRow) => m2.uuid == n.uuid) m ms
        (by simpa using hne)]
      exact ih n hnd.2 hmem'

lemma cleanUpLoopSeq_frame (threshold now : Int) :
    ∀ (us : List String) (i : Nat) (db : DB) (locks : Locks) (db' : DB)
      (locks' : Locks),
      cleanUpLoop threshold now (fun _ d => d) us i db locks =
        some (.ok (db', locks')) →
      (∀ u, u ∉ us → db'.getNode u = db.getNode u) ∧
      (∀ a ∈ db'.attrs, a ∈ db.attrs) ∧ (∀ o ∈ db'.opts, o ∈ db.opts) := by
  intro us
  induction us with
  | nil =>
    intro i db locks db' locks' hloop
    simp only [cleanUpLoop, Option.some.injEq, Except.ok.injEq] at hloop
    obtain ⟨rfl, -⟩ := hloop
    exact ⟨fun u _ => rfl, fun a ha => ha, fun o ho => ho⟩
  | cons u rest ih =>
    intro i db locks db' locks' hloop
    rw [show cleanUpLoop threshold now (fun _ d => d) (u :: rest) i db locks =
        (if locks.contains u then Option.none
         else match db.getNode u with
          | Option.none => some (.error (Err.notFound u))
          | some row =>
            if row.finished_at.isSome || decide (row.started_at > threshold) then
              cleanUpLoop threshold now (fun _ d => d) rest (i + 1) db locks
            else
              cleanUpLoop threshold now (fun _ d => d) rest (i + 1)
                (((db.updateNodeFinished u now
                  (some "Introspection timeout")).deleteAttrsOf u).deleteOptsOf
                  u) locks) from rfl] at hloop
    by_cases hc : locks.contains u
    · rw [if_pos hc] at hloop
      exact Option.noConfusion hloop
    · rw [if_neg hc] at hloop
      cases hg : db.getNode u with
      | none =>
        simp only [hg] at hloop
        exact Except.noConfusion (Option.some.inj hloop)
      | some row =>
        simp only [hg] at hloop
        by_cases hskip :
            (row.finished_at.isSome || decide (row.started_at > threshold)) = true
        · rw [if_pos hskip] at hloop
          obtain ⟨hn, ha, ho⟩ := ih _ _ _ _ _ hloop
          exact ⟨fun u' hu' => hn u' (fun hin => hu' (List.mem_cons_of_mem u hin)),
            ha, ho⟩
        · rw [if_neg hskip] at hloop
          obtain ⟨hn, ha, ho⟩ := ih _ _ _ _ _ hloop
          refine ⟨?_, ?_, ?_⟩
          · intro u' hu'
            have hne : u' ≠ u := fun hEq => hu' (hEq ▸ List.mem_cons_self u rest)
            rw [hn u' (fun hin => hu' (List.mem_cons_of_mem u hin))]
            exact find?_update_ne u u' now (some "Introspection timeout") hne
              db.nodes
          · intro a hA
            have := ha a hA
            exact (List.mem_filter.1 this).1
          · intro o hO
            have := ho o hO
            exact (List.mem_filter.1 this).1

lemma cleanUpLoopSeq_spec (threshold now : Int) :
    ∀ (us : List String) (i : Nat) (db : DB) (locks : Locks) (db' : DB)
      (locks' : Locks),
      us.Nodup →
      cleanUpLoop threshold now (fun _ d => d) us i db locks =
        some (.ok (db', locks')) →
      ∀ u ∈ us, ∀ r, db.getNode u = some r → r.finished_at = Option.none →
        r.started_at ≤ threshold →
        db'.getNode u = some { r with
          finished_at := some now,
          error := some "Introspection timeout" } ∧
        (∀ a ∈ db'.attrs, a.uuid ≠ u) ∧ (∀ o ∈ db'.opts, o.uuid ≠ u) := by
  intro us
  induction us with
  | nil => intro i db locks db' locks' hnd hloop u hu; cases hu
  | cons u rest ih =>
    intro i db locks db' locks' hnd hloop u' hu' r hr hrf hrs
    rw [show cleanUpLoop threshold now (fun _ d => d) (u :: rest) i db locks =
        (if locks.contains u then Option.none
         else match db.getNode u with
          | Option.none => some (.error (Err.notFound u))
          | some row =>
            if row.finished_at.isSome || decide (row.started_at > threshold) then
              cleanUpLoop threshold now (fun _ d => d) rest (i + 1) db locks
            else
              cleanUpLoop threshold now (fun _ d => d) rest (i + 1)
                (((db.updateNodeFinished u now
                  (some "Introspection timeout")).deleteAttrsOf u).deleteOptsOf
                  u) locks) from rfl] at hloop
    simp only [List.nodup_cons] at hnd
    by_cases hc : locks.contains u
    · rw [if_pos hc] at hloop
      exact Option.noConfusion hloop
    · rw [if_neg hc] at hloop
      cases hg : db.getNode u with
      | none =>
        simp only [hg] at hloop
        exact Except.noConfusion (Option.some.inj hloop)
      | some row =>
        simp only [hg] at hloop
        by_cases hskip :
            (row.finished_at.isSome || decide (row.started_at > threshold)) = true
        · rw [if_pos hskip] at hloop
          rcases List.mem_cons.1 hu' with rfl | hmem
          · rw [hg] at hr
            cases hr
            rw [hrf] at hskip
            simp only [Option.isSome_none, Bool.false_or, decide_eq_true_eq]
              at hskip
            omega
          · exact ih _ _ _ _ _ hnd.2 hloop u' hmem r hr hrf hrs
        · rw [if_neg hskip] at hloop
          rcases List.mem_cons.1 hu' with rfl | hmem
          · rw [hg] at hr
            cases hr
            obtain ⟨hfr, hfa, hfo⟩ :=
              cleanUpLoopSeq_frame threshold now rest (i + 1) _ _ _ _ hloop
            refine ⟨?_, ?_, ?_⟩
            · rw [hfr u' hnd.1]
              exact find?_update_self u' now
                (some "Introspection timeout") db.nodes r hg
            · intro a hA
              have := hfa a hA
              have h2 := (List.mem_filter.1 this).2
              simpa using h2
            · intro o hO
              have := hfo o hO
              have h2 := (List.mem_filter.1 this).2
              simpa using h2
          · have hne : u' ≠ u := fun hEq => hnd.1 (hEq ▸ hmem)
            have hr1 : (((db.updateNodeFinished u now
                (some "Introspection timeout")).deleteAttrsOf u).deleteOptsOf
                u).getNode u' = some r :=
              (find?_update_ne u u' now (some "Introspection timeout") hne
                db.nodes).trans hr
            exact ih _ _ _ _ _ hnd.2 hloop u' hmem r hr1 hrf hrs

/-- C2 (counterexample): `clean_up` returns the list of uuids selected by
the initial query, not the uuids actually timed out: when a concurrent
abort finishes node `u` between the query and the lock acquisition, the
under-lock re-check skips `u`, leaving its record with the abort's error
`Canceled by operator` — yet `u` still appears in the returned list. -/
theorem C2_counterexample :
    clean_up ⟨10, 1000⟩ 100 (fun i db => if i == 0 then
        ((db.updateNodeFinished "u" 95
          (some "Canceled by operator")).deleteAttrsOf "u").deleteOptsOf "u"
      else db)
      ⟨[⟨"u", 0, Option.none, Option.none⟩], [⟨"mac", "m", "u"⟩], []⟩ [] =
      some (.ok (⟨[⟨"u", 0, some 95, some "Canceled by operator"⟩], [], []⟩,
        [], ["u"])) ∧
    some "Canceled by operator" ≠ some "Introspection timeout" := by decide

/-- C2 (amended): `clean_up` returns exactly the uuids selected by its
initial query (regardless of what other lock holders do while it waits for
each lock), so a uuid skipped by the under-lock re-check still appears in
the returned list; in the absence of concurrent activity, every returned
uuid does have its record updated to `finished_at = now` with error
`Introspection timeout` and its attributes and options deleted. -/
theorem C2_cleanup_returns_selection :
    (∀ (cfg : Config) (now : Int) (env : Nat → DB → DB) (db : DB)
        (locks : Locks) (db' : DB) (locks' : Locks) (us : List String),
      clean_up cfg now env db locks = some (.ok (db', locks', us)) →
      us = timeoutSelection cfg now db) ∧
    (∀ (cfg : Config) (now : Int) (db : DB) (locks : Locks) (db' : DB)
        (locks' : Locks) (us : List String),
      (db.nodes.map (fun n => n.uuid)).Nodup →
      clean_up_seq cfg now db locks = some (.ok (db', locks', us)) →
      ∀ u ∈ us,
        (∃ r, db'.getNode u = some r ∧ r.finished_at = some now ∧
          r.error = some "Introspection timeout") ∧
        (∀ a ∈ db'.attrs, a.uuid ≠ u) ∧ (∀ o ∈ db'.opts, o.uuid ≠ u)) := by
  constructor
  · intro cfg now env db locks db' locks' us hcl
    simp only [clean_up] at hcl
    split at hcl
    next h0 =>
      have h := Except.ok.inj (Option.some.inj hcl)
      have h3 := (Prod.mk.inj (Prod.mk.inj h).2).2
      rw [← h3]
      simp [timeoutSelection, h0]
    next h0 =>
      split at hcl
      next hemp =>
        have h := Except.ok.inj (Option.some.inj hcl)
        have h3 := (Prod.mk.inj (Prod.mk.inj h).2).2
        rw [← h3]
        simp only [timeoutSelection, if_neg h0]
        exact (List.isEmpty_iff.mp hemp).symm
      next hemp =>
        rw [Option.map_eq_some'] at hcl
        obtain ⟨r, hL, hr⟩ := hcl
        cases r with
        | error e => simp [Except.map] at hr
        | ok p =>
          simp only [Except.map, Except.ok.injEq] at hr
          have h3 := (Prod.mk.inj (Prod.mk.inj hr).2).2
          rw [← h3]
          simp [timeoutSelection, h0]
  · intro cfg now db locks db' locks' us hnd hcl u hu
    rw [show clean_up_seq cfg now db locks =
        clean_up cfg now (fun _ d => d) db locks from rfl] at hcl
    simp only [clean_up] at hcl
    split at hcl
    next h0 =>
      have h := Except.ok.inj (Option.some.inj hcl)
      have h3 := (Prod.mk.inj (Prod.mk.inj h).2).2
      rw [← h3] at hu
      cases hu
    next h0 =>
      split at hcl
      next hemp =>
        have h := Except.ok.inj (Option.some.inj hcl)
        have h3 := (Prod.mk.inj (Prod.mk.inj h).2).2
        rw [← h3] at hu
        cases hu
      next hemp =>
        rw [Option.map_eq_some'] at hcl
        obtain ⟨r, hL, hr⟩ := hcl
        cases r with
        | error e => simp [Except.map] at hr
        | ok p =>
          simp only [Except.map, Except.ok.injEq] at hr
          obtain ⟨h1, h2⟩ := Prod.mk.inj hr
          obtain ⟨-, h3⟩ := Prod.mk.inj h2
          subst h1
          rw [← h3] at hu
          have hndp : ((db.nodes.filter (fun n =>
              match n.finished_at with
              | some t => !decide (t < now - cfg.node_status_keep_time)
              | Option.none => true)).map (fun (n : NodeRow) =>
                n.uuid)).Nodup :=
            List.Nodup.sublist
              ((List.filter_sublist db.nodes).map (fun (n : NodeRow) =>
                n.uuid)) hnd
          have hselnd : (((db.nodes.filter (fun n =>
              match n.finished_at with
              | some t => !decide (t < now - cfg.node_status_keep_time)
              | Option.none => true)).filter (fun n =>
                decide (n.started_at < now - cfg.timeout) &&
                  n.finished_at.isNone)).map (fun (n : NodeRow) =>
                    n.uuid)).Nodup :=
            List.Nodup.sublist
              ((List.filter_sublist (db.nodes.filter (fun n =>
                match n.finished_at with
                | some t => !decide (t < now - cfg.node_status_keep_time)
                | Option.none => true))).map (fun (n : NodeRow) =>
                  n.uuid)) hndp
          obtain ⟨n, hnmem, hnu⟩ := List.mem_map.1 hu
          have hnf := List.mem_filter.1 hnmem
          have hcond := hnf.2
          simp only [Bool.and_eq_true, decide_eq_true_eq,
            Option.isNone_iff_eq_none] at hcond
          have hget : (db.nodes.filter (fun n =>
              match n.finished_at with
              | some t => !decide (t < now - cfg.node_status_keep_time)
              | Option.none => true)).find?
              (fun m => m.uuid == n.uuid) = some n :=
            getNode_of_nodup _ n (by simpa using hndp) hnf.1
          have hspec := cleanUpLoopSeq_spec (now - cfg.timeout) now _ 0 _
            locks p.1 p.2 hselnd hL u hu n
            (by rw [← hnu]; exact hget) hcond.2 (le_of_lt hcond.1)
          refine ⟨⟨{ n with
            finished_at := some now,
            error := some "Introspection timeout" }, hspec.1, rfl, rfl⟩,
            hspec.2.1, hspec.2.2⟩

/-- C2 (witness): the sequential conjunct of the amended theorem on a store
with one timed-out node. -/
theorem C2_witness :
    (∃ r, (⟨[⟨"u", 0, some 100, some "Introspection timeout"⟩], [], []⟩ :
        DB).getNode "u" = some r ∧ r.finished_at = some 100 ∧
      r.error = some "Introspection timeout") ∧
    (∀ a ∈ (⟨[⟨"u", 0, some 100, some "Introspection timeout"⟩], [], []⟩ :
        DB).attrs, a.uuid ≠ "u") ∧
    (∀ o ∈ (⟨[⟨"u", 0, some 100, some "Introspection timeout"⟩], [], []⟩ :
        DB).opts, o.uuid ≠ "u") :=
  C2_cleanup_returns_selection.2 ⟨10, 1000⟩ 100
    ⟨[⟨"u", 0, Option.none, Option.none⟩], [⟨"mac", "m", "u"⟩], []⟩ []
    ⟨[⟨"u", 0, some 100, some "Introspection timeout"⟩], [], []⟩ [] ["u"]
    (by decide) (by decide) "u" (by decide)

lemma mem_insertSortedAttr (x y : String × AttrVal) :
    ∀ (l : List (String × AttrVal)),
      y ∈ insertSortedAttr x l ↔ y = x ∨ y ∈ l := by
  intro l
  induction l with
  | nil => simp [insertSortedAttr]
  | cons z zs ih =>
    simp only [insertSortedAttr]
    split
    · simp [List.mem_cons]
    · simp only [List.mem_cons, ih]
      tauto

lemma mem_sortAttrs :
    ∀ (attrs : List (String × AttrVal)) (x : String × AttrVal),
      x ∈ sortAttrs attrs ↔ x ∈ attrs := by
  intro attrs
  induction attrs with
  | nil => intro x; simp [sortAttrs]
  | cons a l ih =>
    intro x
    rw [show sortAttrs (a :: l) = insertSortedAttr a (sortAttrs l) from rfl,
      mem_insertSortedAttr]
    simp [ih]

lemma findCandidates_foldl_falsy (db : DB) :
    ∀ (l : List (String × AttrVal)) (acc : List String),
      (∀ nv ∈ l, nv.2.falsy = true) →
      l.foldlM (findStep db) acc = .ok acc := by
  intro l
  induction l with
  | nil => intro acc hall; rfl
  | cons nv l ih =>
    intro acc hall
    rw [show (nv :: l).foldlM (findStep db) acc =
        (findStep db acc nv) >>= (fun b => l.foldlM (findStep db) b)
        from rfl]
    rw [show findStep db acc nv =
        (if nv.2.falsy then pure acc
         else
          match runStmt (buildStmt nv.1 nv.2.toList) db with
          | Option.none => .error Err.sqlError
          | some rows =>
              pure (rows.foldl (fun f u =>
                if f.contains u then f else f ++ [u]) acc)) from rfl]
    rw [if_pos (hall nv (List.mem_cons_self nv l))]
    exact ih acc (fun x hx => hall x (List.mem_cons_of_mem nv hx))

lemma findCandidates_all_falsy (attrs : List (String × AttrVal)) (db : DB)
    (h : ∀ nv ∈ attrs, nv.2.falsy = true) :
    findCandidates attrs db = .ok [] :=
  findCandidates_foldl_falsy db (sortAttrs attrs) []
    (fun nv hnv => h nv ((mem_sortAttrs attrs nv).1 hnv))

/-- C4: the `find_node` contract.  With every supplied attribute empty the
candidate collection is empty and `NotFoundInCacheError` is raised; an
empty candidate union likewise raises it; more than one candidate raises
the 404-class ambiguous error; exactly one candidate `u` leads to a
blocking lock acquisition on `u` followed by a re-read under the lock:
a missing row or a set `finished_at` releases the lock (registry restored)
and fails, and otherwise a locked `NodeInfo` is returned with the lock
registry extended by `u`. -/
theorem C4_find_node_contract (attrs : List (String × AttrVal)) (db : DB)
    (locks : Locks) :
    ((∀ nv ∈ attrs, nv.2.falsy = true) →
      find_node attrs db locks = some (.error Err.notFoundInCache, locks)) ∧
    (findCandidates attrs db = .ok [] →
      find_node attrs db locks = some (.error Err.notFoundInCache, locks)) ∧
    (∀ us, findCandidates attrs db = .ok us → 2 ≤ us.length →
      find_node attrs db locks =
        some (.error (Err.ambiguousLookup us), locks) ∧
      (Err.ambiguousLookup us).code = 404) ∧
    (∀ u, findCandidates attrs db = .ok [u] → locks.contains u = false →
      (db.getNode u = Option.none →
        find_node attrs db locks = some (.error (Err.notFound u), locks)) ∧
      (∀ row t, db.getNode u = some row → row.finished_at = some t →
        find_node attrs db locks =
          some (.error (Err.alreadyFinished t), locks)) ∧
      (∀ row, db.getNode u = some row → row.finished_at = Option.none →
        find_node attrs db locks =
          some (.ok ⟨u, some row.started_at, Option.none, Option.none, true⟩,
            u :: locks))) := by
  refine ⟨?_, ?_, ?_, ?_⟩
  · intro hall
    simp [find_node, findCandidates_all_falsy attrs db hall]
  · intro hfc
    simp [find_node, hfc]
  · intro us hfc hlen
    refine ⟨?_, rfl⟩
    match us, hlen with
    | u1 :: u2 :: rest, _ => simp [find_node, hfc]
  · intro u hfc hc
    have hm : u ∉ locks := by simpa using hc
    refine ⟨?_, ?_, ?_⟩
    · intro hg
      simp [find_node, hfc, NodeInfo.acquireLock, hm, hg,
        NodeInfo.releaseLock]
    · intro row t hg hf
      simp [find_node, hfc, NodeInfo.acquireLock, hm, hg, hf,
        NodeInfo.releaseLock]
    · intro row hg hf
      simp [find_node, hfc, NodeInfo.acquireLock, hm, hg, hf]

/-- C4 (witness): the exactly-one-candidate success path at a concrete
store. -/
theorem C4_witness :
    find_node [("mac", AttrVal.scalar "aa")]
        ⟨[⟨"w", 3, Option.none, Option.none⟩], [⟨"mac", "aa", "w"⟩], []⟩ [] =
      some (.ok ⟨"w", some 3, Option.none, Option.none, true⟩, ["w"]) :=
  ((C4_find_node_contract [("mac", AttrVal.scalar "aa")]
      ⟨[⟨"w", 3, Option.none, Option.none⟩], [⟨"mac", "aa", "w"⟩], []⟩
      []).2.2.2 "w" (by decide) (by decide)).2.2
    ⟨"w", 3, Option.none, Option.none⟩ (by decide) (by decide)

lemma tokFold_none : ∀ (cs : List Char),
    cs.foldl tokStep Option.none = Option.none := by
  intro cs
  induction cs with
  | nil => rfl
  | cons c cs ih => exact ih

lemma tokStep_toks (c : Char) (m : TokMode) (toks : List SqlTok) :
    tokStep (some (toks, m)) c =
      (tokStep (some ([], m)) c).map (fun p => (toks ++ p.1, p.2)) := by
  cases m with
  | top =>
    simp only [tokStep]
    split
    · simp
    · split
      · simp
      · split
        · simp
        · split
          · simp
          · simp
  | inStr acc =>
    simp only [tokStep]
    split
    · simp
    · simp
  | inIdent acc =>
    simp only [tokStep]
    split
    · simp
    · split
      · simp
      · split
        · simp
        · split
          · simp
          · simp

lemma tokFold_toks : ∀ (cs : List Char) (toks : List SqlTok) (m : TokMode),
    cs.foldl tokStep (some (toks, m)) =
      (cs.foldl tokStep (some ([], m))).map (fun p => (toks ++ p.1, p.2)) := by
  intro cs
  induction cs with
  | nil => intro toks m; simp
  | cons c cs ih =>
    intro toks m
    rw [List.foldl_cons, List.foldl_cons, tokStep_toks c m toks]
    cases h : tokStep (some ([], m)) c with
    | none => simp [tokFold_none]
    | some p =>
      simp only [Option.map_some']
      rw [ih (toks ++ p.1) p.2, ih p.1 p.2]
      cases cs.foldl tokStep (some ([], p.2)) with
      | none => simp
      | some q => simp

lemma tokFold_inStr : ∀ (v acc : List Char) (toks : List SqlTok),
    (∀ c ∈ v, c ≠ '"') →
    v.foldl tokStep (some (toks, TokMode.inStr acc)) =
      some (toks, TokMode.inStr (acc ++ v)) := by
  intro v
  induction v with
  | nil => intro acc toks hv; simp
  | cons c v ih =>
    intro acc toks hv
    rw [List.foldl_cons]
    rw [show tokStep (some (toks, TokMode.inStr acc)) c =
        some (toks, TokMode.inStr (acc ++ [c])) from by
      simp only [tokStep]
      rw [if_neg (by simpa using hv c (List.mem_cons_self c v))]]
    rw [ih (acc ++ [c]) toks
      (fun d hd => hv d (List.mem_cons_of_mem c hd))]
    simp

lemma intercalate_single (s x : String) : String.intercalate s [x] = x := rfl

lemma tokenize_buildStmt_single (name v : String)
    (hn : ∀ c ∈ name.data, c ≠ '"') (hv : ∀ c ∈ v.data, c ≠ '"') :
    tokenize (buildStmt name [v]) =
      some [SqlTok.ident "select", SqlTok.ident "distinct",
        SqlTok.ident "uuid", SqlTok.ident "from", SqlTok.ident "attributes",
        SqlTok.ident "where", SqlTok.ident "name", SqlTok.eqTok,
        SqlTok.strLit name, SqlTok.ident "AND", SqlTok.ident "value",
        SqlTok.eqTok, SqlTok.strLit v] := by
  have hdata : (buildStmt name [v]).data =
      ("select distinct uuid from attributes where " : String).data ++
      (("name=\"" : String).data ++ (name.data ++
        (("\" AND value=\"" : String).data ++ (v.data ++
          ("\"" : String).data)))) := by
    simp only [buildStmt, List.map_cons, List.map_nil, intercalate_single,
      buildClause, String.data_append, List.append_assoc]
  have H : (buildStmt name [v]).data.foldl tokStep
      (some ([], TokMode.top)) =
      some ([SqlTok.ident "select", SqlTok.ident "distinct",
        SqlTok.ident "uuid", SqlTok.ident "from", SqlTok.ident "attributes",
        SqlTok.ident "where", SqlTok.ident "name", SqlTok.eqTok,
        SqlTok.strLit name, SqlTok.ident "AND", SqlTok.ident "value",
        SqlTok.eqTok, SqlTok.strLit v], TokMode.top) := by
    rw [hdata, List.foldl_append]
    rw [show (("select distinct uuid from attributes where " :
        String).data.foldl tokStep (some ([], TokMode.top))) =
        some ([SqlTok.ident "select", SqlTok.ident "distinct",
          SqlTok.ident "uuid", SqlTok.ident "from",
          SqlTok.ident "attributes", SqlTok.ident "where"], TokMode.top)
      from by decide]
    rw [List.foldl_append]
    rw [show (("name=\"" : String).data.foldl tokStep
        (some ([SqlTok.ident "select", SqlTok.ident "distinct",
          SqlTok.ident "uuid", SqlTok.ident "from",
          SqlTok.ident "attributes", SqlTok.ident "where"], TokMode.top))) =
        some ([SqlTok.ident "select", SqlTok.ident "distinct",
          SqlTok.ident "uuid", SqlTok.ident "from",
          SqlTok.ident "attributes", SqlTok.ident "where",
          SqlTok.ident "name", SqlTok.eqTok], TokMode.inStr [])
      from by decide]
    rw [List.foldl_append]
    rw [tokFold_inStr name.data []
      [SqlTok.ident "select", SqlTok.ident "distinct", SqlTok.ident "uuid",
        SqlTok.ident "from", SqlTok.ident "attributes",
        SqlTok.ident "where", SqlTok.ident "name", SqlTok.eqTok] hn]
    rw [List.foldl_append]
    rw [show (("\" AND value=\"" : String).data) =
      '"' :: (" AND value=\"" : String).data from by decide]
    rw [List.foldl_cons]
    rw [show tokStep (some ([SqlTok.ident "select", SqlTok.ident "distinct",
        SqlTok.ident "uuid", SqlTok.ident "from", SqlTok.ident "attributes",
        SqlTok.ident "where", SqlTok.ident "name", SqlTok.eqTok],
        TokMode.inStr ([] ++ name.data))) '"' =
        some ([SqlTok.ident "select", SqlTok.ident "distinct",
          SqlTok.ident "uuid", SqlTok.ident "from",
          SqlTok.ident "attributes", SqlTok.ident "where",
          SqlTok.ident "name", SqlTok.eqTok, SqlTok.strLit name],
          TokMode.top) from rfl]
    rw [tokFold_toks (" AND value=\"" : String).data
      [SqlTok.ident "select", SqlTok.ident "distinct", SqlTok.ident "uuid",
        SqlTok.ident "from", SqlTok.ident "attributes",
        SqlTok.ident "where", SqlTok.ident "name", SqlTok.eqTok,
        SqlTok.strLit name] TokMode.top]
    rw [show ((" AND value=\"" : String).data.foldl tokStep
        (some ([], TokMode.top))) =
        some ([SqlTok.ident "AND", SqlTok.ident "value", SqlTok.eqTok],
          TokMode.inStr []) from by decide]
    simp only [Option.map_some']
    rw [List.foldl_append]
    rw [tokFold_inStr v.data []
      ([SqlTok.ident "select", SqlTok.ident "distinct", SqlTok.ident "uuid",
        SqlTok.ident "from", SqlTok.ident "attributes",
        SqlTok.ident "where", SqlTok.ident "name", SqlTok.eqTok,
        SqlTok.strLit name] ++
        [SqlTok.ident "AND", SqlTok.ident "value", SqlTok.eqTok]) hv]
    rw [List.foldl_cons]
    rw [show tokStep (some (([SqlTok.ident "select", SqlTok.ident "distinct",
        SqlTok.ident "uuid", SqlTok.ident "from", SqlTok.ident "attributes",
        SqlTok.ident "where", SqlTok.ident "name", SqlTok.eqTok,
        SqlTok.strLit name] ++
        [SqlTok.ident "AND", SqlTok.ident "value", SqlTok.eqTok]),
        TokMode.inStr ([] ++ v.data))) '"' =
        some (([SqlTok.ident "select", SqlTok.ident "distinct",
          SqlTok.ident "uuid", SqlTok.ident "from",
          SqlTok.ident "attributes", SqlTok.ident "where",
          SqlTok.ident "name", SqlTok.eqTok, SqlTok.strLit name] ++
          [SqlTok.ident "AND", SqlTok.ident "value", SqlTok.eqTok]) ++
          [SqlTok.strLit v], TokMode.top) from rfl]
    simp
  simp [tokenize, H]

lemma runStmt_buildStmt_single (name v : String)
    (hn : ∀ c ∈ name.data, c ≠ '"') (hv : ∀ c ∈ v.data, c ≠ '"')
    (hnc : attrColumns.contains name = false)
    (hvc : attrColumns.contains v = false) (db : DB) :
    runStmt (buildStmt name [v]) db =
      some (dedupKeepFirst ((db.attrs.filter (fun a =>
        a.name == name && a.value == v)).map (fun a => a.uuid))) := by
  have htok := tokenize_buildStmt_single name v hn hv
  have hnc2 : ¬(name = "name" ∨ name = "value" ∨ name = "uuid") := by
    simpa [attrColumns] using hnc
  have hvc2 : ¬(v = "name" ∨ v = "value" ∨ v = "uuid") := by
    simpa [attrColumns] using hvc
  simp only [runStmt, htok, Option.bind_eq_bind, Option.some_bind]
  simp [parseWhere, splitOnTok, parseConjs, parseFactors, parseFactor,
    operandOf, hnc2, hvc2, evalWhere, evalOperand, dedupKeepFirst,
    attrColumns]

/-- C7 (counterexample): because `find_node` builds its SQL by string
interpolation, an attribute value shaped like an injection payload breaks
the round trip even though it is non-empty and attached to no other node:
after `add_node`, the generated statement's `OR "1"="1"` clause matches
every attribute row, the candidate set becomes ambiguous, and `find_node`
raises instead of returning the node. -/
theorem C7_counterexample :
    add_node "u" [("mac", AttrVal.scalar "x\" OR \"1\"=\"1")] 50
        ⟨[⟨"w", 0, Option.none, Option.none⟩], [⟨"mac", "m", "w"⟩], []⟩ =
      .ok (⟨"u", some 50, Option.none, Option.none, false⟩,
        ⟨[⟨"w", 0, Option.none, Option.none⟩,
          ⟨"u", 50, Option.none, Option.none⟩],
         [⟨"mac", "m", "w"⟩, ⟨"mac", "x\" OR \"1\"=\"1", "u"⟩], []⟩) ∧
    find_node [("mac", AttrVal.scalar "x\" OR \"1\"=\"1")]
        ⟨[⟨"w", 0, Option.none, Option.none⟩,
          ⟨"u", 50, Option.none, Option.none⟩],
         [⟨"mac", "m", "w"⟩, ⟨"mac", "x\" OR \"1\"=\"1", "u"⟩], []⟩ [] =
      some (.error (Err.ambiguousLookup ["w", "u"]), []) := by decide

/-- C7 (amended): for a non-empty value `v` that keeps the interpolated SQL
well-formed — no double-quote character in `v` or in the attribute name,
and neither spelling a column of the `attributes` table — and that is
attached to no other node, `add_node(u, name=v)` followed by
`find_node(name=v)` returns a locked `NodeInfo` with uuid `u`. -/
theorem C7_addnode_findnode_roundtrip (u name v : String) (db : DB)
    (locks : Locks) (now : Int)
    (hv : v ≠ "") (hvq : ∀ c ∈ v.data, c ≠ '"')
    (hnq : ∀ c ∈ name.data, c ≠ '"')
    (hnc : attrColumns.contains name = false)
    (hvc : attrColumns.contains v = false)
    (hother : ∀ a ∈ db.attrs, a.name = name → a.value = v → a.uuid = u)
    (hlock : locks.contains u = false) :
    add_node u [(name, AttrVal.scalar v)] now db =
      .ok (⟨u, some now, Option.none, Option.none, false⟩, DB.mk
        ((db.nodes.filter (fun n => n.uuid != u)) ++
          [⟨u, now, Option.none, Option.none⟩])
        ((db.attrs.filter (fun a => a.uuid != u)) ++ [⟨name, v, u⟩])
        (db.opts.filter (fun o => o.uuid != u))) ∧
    find_node [(name, AttrVal.scalar v)] (DB.mk
        ((db.nodes.filter (fun n => n.uuid != u)) ++
          [⟨u, now, Option.none, Option.none⟩])
        ((db.attrs.filter (fun a => a.uuid != u)) ++ [⟨name, v, u⟩])
        (db.opts.filter (fun o => o.uuid != u))) locks =
      some (.ok ⟨u, some now, Option.none, Option.none, true⟩,
        u :: locks) := by
  have hfal : (AttrVal.scalar v).falsy = false := by
    simp [AttrVal.falsy, hv]
  constructor
  · simp only [add_node, hfal, addAttribute, AttrVal.toList, List.foldlM,
      DB.deleteNode, DB.deleteAttrsOf, DB.deleteOptsOf, DB.deleteNodeRow,
      Bool.false_eq_true, if_neg]
    have hdup : ((List.filter (fun (a : AttrRow) => a.uuid != u)
        db.attrs).any (fun a => a.name == name && a.value == v)) = false := by
      simp only [List.any_eq_false, List.mem_filter, bne_iff_ne, ne_eq,
        Bool.and_eq_true, beq_iff_eq, and_imp]
      intro a hmem hne h1
      exact hne (hother a hmem h1.1 h1.2)
    simp [hdup]
  · have hrun := runStmt_buildStmt_single name v hnq hvq hnc hvc (DB.mk
        ((db.nodes.filter (fun n => n.uuid != u)) ++
          [⟨u, now, Option.none, Option.none⟩])
        ((db.attrs.filter (fun a => a.uuid != u)) ++ [⟨name, v, u⟩])
        (db.opts.filter (fun o => o.uuid != u)))
    have hfilter : (((db.attrs.filter (fun a => a.uuid != u)) ++
        [(⟨name, v, u⟩ : AttrRow)]).filter (fun a =>
          a.name == name && a.value == v)) = [⟨name, v, u⟩] := by
      rw [List.filter_append]
      have h1 : ((db.attrs.filter (fun a => a.uuid != u)).filter (fun a =>
          a.name == name && a.value == v)) = [] := by
        simp only [List.filter_eq_nil_iff, List.mem_filter, bne_iff_ne,
          ne_eq, Bool.and_eq_true, beq_iff_eq, and_imp, not_and]
        intro a hmem hne h1 h2
        exact hne (hother a hmem h1 h2)
      rw [h1]
      simp
    rw [hfilter] at hrun
    have hfc : findCandidates [(name, AttrVal.scalar v)] (DB.mk
        ((db.nodes.filter (fun n => n.uuid != u)) ++
          [⟨u, now, Option.none, Option.none⟩])
        ((db.attrs.filter (fun a => a.uuid != u)) ++ [⟨name, v, u⟩])
        (db.opts.filter (fun o => o.uuid != u))) = .ok [u] := by
      simp [findCandidates, sortAttrs, insertSortedAttr, findStep, hfal,
        AttrVal.toList, hrun, dedupKeepFirst]
      rfl
    have hm : u ∉ locks := by simpa using hlock
    have hfind : (((db.nodes.filter (fun n => n.uuid != u)) ++
        [(⟨u, now, Option.none, Option.none⟩ : NodeRow)]).find?
          (fun n => n.uuid == u)) =
        some ⟨u, now, Option.none, Option.none⟩ := by
      rw [List.find?_append]
      have h1 : ((db.nodes.filter (fun n => n.uuid != u)).find?
          (fun n => n.uuid == u)) = Option.none := by
        simp only [List.find?_eq_none, List.mem_filter, bne_iff_ne, ne_eq,
          beq_iff_eq, and_imp]
        intro a hmem hne
        exact hne
      rw [h1]
      simp
    simp [find_node, hfc, NodeInfo.acquireLock, hm, DB.getNode, hfind]

/-- C7 (witness): the amended theorem at a clean MAC-style value on a store
holding one other active node. -/
theorem C7_witness :
    add_node "u" [("mac", AttrVal.scalar "aa:bb")] 50
        ⟨[⟨"w", 0, Option.none, Option.none⟩], [⟨"mac", "m", "w"⟩], []⟩ =
      .ok (⟨"u", some 50, Option.none, Option.none, false⟩, DB.mk
        ((([⟨"w", 0, Option.none, Option.none⟩] :
          List NodeRow).filter (fun n => n.uuid != "u")) ++
          [⟨"u", 50, Option.none, Option.none⟩])
        ((([⟨"mac", "m", "w"⟩] : List AttrRow).filter
          (fun a => a.uuid != "u")) ++ [⟨"mac", "aa:bb", "u"⟩])
        (([] : List OptRow).filter (fun o => o.uuid != "u"))) ∧
    find_node [("mac", AttrVal.scalar "aa:bb")] (DB.mk
        ((([⟨"w", 0, Option.none, Option.none⟩] :
          List NodeRow).filter (fun n => n.uuid != "u")) ++
          [⟨"u", 50, Option.none, Option.none⟩])
        ((([⟨"mac", "m", "w"⟩] : List AttrRow).filter
          (fun a => a.uuid != "u")) ++ [⟨"mac", "aa:bb", "u"⟩])
        (([] : List OptRow).filter (fun o => o.uuid != "u"))) [] =
      some (.ok ⟨"u", some 50, Option.none, Option.none, true⟩, ["u"]) :=
  C7_addnode_findnode_roundtrip "u" "mac" "aa:bb"
    ⟨[⟨"w", 0, Option.none, Option.none⟩], [⟨"mac", "m", "w"⟩], []⟩ [] 50
    (by decide) (by decide) (by decide) (by decide) (by decide)
    (by decide) (by decide)

/-- C10 (witness): the theorem at a concrete locked, already-finished
handle. -/
theorem C10_witness :
    process [] (some ⟨"u", some 0, some 5, some "err", true⟩) 9
        ⟨[⟨"u", 0, some 5, some "err"⟩], [], []⟩ ["u"]
        (fun ni db locks => ⟨.ok (), some ni, db, locks⟩) =
      some ⟨.error (.processAlreadyFinished (some "err")),
        some ⟨"u", some 0, some 5, some "err", true⟩,
        ⟨[⟨"u", 0, some 5, some "err"⟩], [], []⟩, ["u"]⟩ ∧
    (Err.processAlreadyFinished (some "err")).code = 400 :=
  C10_process_already_finished ⟨"u", some 0, some 5, some "err", true⟩ 5 9
    ⟨[⟨"u", 0, some 5, some "err"⟩], [], []⟩ ["u"]
    (fun ni db locks => ⟨.ok (), some ni, db, locks⟩) rfl rfl

end Inspector
